import Mathlib

/-!
Oxia Go client: shard routing, error classification, the read batch, the write
stream and the client pool.

A shallow embedding of
* `internal/shard_strategy_impl.go` (`shardStrategyImpl.Get`),
* `internal/batch/rpc_errors.go` (`isRetriable`),
* `internal/batch/read_batch.go` (`readBatch`),
* `internal/metrics/metrics.go` (`Metrics.DecorateGet`, `Metrics.ReadCallback`),
* `internal/write_stream.go` (`streamWrapper`),
* `internal/provider/client_pool.go` (`clientPool.getActualAddress`,
  `clientPool.getTransportCredential`),
followed by the theorems proved about them.

Conventions.  Go `uint32` values are natural numbers; where a bound matters it
is stated as `< 2 ^ 32`.  A Go pointer that may be nil is an `Option`.  A Go
function value that may have effects is a state-passing function.  Effects that
leave the program (user callbacks, metric records, executor calls) are recorded
as a list of `Event`s in program order.  A Go panic is a `some msg` in the
`panicked` component of a result, next to the state reached when it was raised.
-/

namespace Oxia

/-! ## Shards and hash ranges -/

/-- The Go struct `HashRange`: an inclusive interval of 32-bit hash codes. -/
structure HashRange where
  MinInclusive : Nat
  MaxInclusive : Nat
deriving DecidableEq, Repr

/-- The Go struct `Shard` (spec §3): a shard id and the hash range it owns. -/
structure Shard where
  Id : Int
  HashRange : HashRange
deriving DecidableEq, Repr

/-- The test helper `hashRange(min, max)` of `shard_manager_test.go`. -/
def hashRange (min max : Nat) : HashRange :=
  { MinInclusive := min, MaxInclusive := max }

/-- Modelled from the spec: `overlap` is declared in `shard_manager.go`, which is
not part of the sources at hand; only its test `TestOverlap` is.  Spec §4.1: two
ranges `[a.lo,a.hi]`, `[b.lo,b.hi]` overlap iff `a.lo <= b.hi && b.lo <= a.hi`. -/
def overlap (a b : HashRange) : Bool :=
  decide (a.MinInclusive ≤ b.MaxInclusive) && decide (b.MinInclusive ≤ a.MaxInclusive)

/-- Specification vocabulary: the hash code `c` lies in the inclusive range `r`. -/
def HashRange.Holds (r : HashRange) (c : Nat) : Prop :=
  r.MinInclusive ≤ c ∧ c ≤ r.MaxInclusive

/-- Specification vocabulary: a 32-bit hash range, `lo <= hi <= 2^32 - 1`. -/
def HashRange.WellFormed (r : HashRange) : Prop :=
  r.MinInclusive ≤ r.MaxInclusive ∧ r.MaxInclusive < 2 ^ 32

/-- The Go struct `shardStrategyImpl`.  `hashFunc` is a Go function value
`func(string) uint32`; calling it is an effect, so it is modelled as a
state-passing function over an arbitrary state `σ` (for `hash.Xxh332` the state
is irrelevant; a state that counts calls makes the number of calls visible). -/
structure shardStrategyImpl (σ : Type) where
  hashFunc : String → σ → Nat × σ

/-- The method `shardStrategyImpl.Get`: the hash function is called once, before
the closure is built; the closure captures `code` and is pure. -/
def shardStrategyImpl.Get {σ : Type} (s : shardStrategyImpl σ) (key : String) (st : σ) :
    (Shard → Bool) × σ :=
  let r := s.hashFunc key st
  let code := r.1
  (fun shard =>
      let hashRange := shard.HashRange
      decide (hashRange.MinInclusive ≤ code) && decide (code ≤ hashRange.MaxInclusive),
   r.2)

/-- A hash function that counts how often it has been called (the state is the
number of calls so far); used to observe the number of hash computations. -/
def countingHash (h : String → Nat) : shardStrategyImpl Nat :=
  { hashFunc := fun key calls => (h key, calls + 1) }

/-- The two-shard topology of the spec's end-to-end scenario:
`[0, 2^31-1]` and `[2^31, 2^32-1]`. -/
def twoShards : List Shard :=
  [ { Id := 0, HashRange := hashRange 0 (2 ^ 31 - 1) },
    { Id := 1, HashRange := hashRange (2 ^ 31) (2 ^ 32 - 1) } ]

/-! ## Errors and gRPC status codes -/

/-- The gRPC type `codes.Code` (a `uint32`). -/
abbrev Code := Nat

namespace codes

def OK : Code := 0
def Canceled : Code := 1
def Unknown : Code := 2
def InvalidArgument : Code := 3
def DeadlineExceeded : Code := 4
def NotFound : Code := 5
def Unavailable : Code := 14
def Unauthenticated : Code := 16

end codes

/-- The status codes of the package `github.com/oxia-db/oxia/common/constant`
that `isRetriable` names.  The package is not part of the sources at hand, so
the three values are parameters. -/
structure constant where
  CodeInvalidStatus : Code
  CodeAlreadyClosed : Code
  CodeNodeIsNotLeader : Code
deriving DecidableEq, Repr

/-- Specification vocabulary: the application codes lie outside the range
`0..16` that gRPC itself assigns. -/
def constant.Custom (k : constant) : Prop :=
  16 < k.CodeInvalidStatus ∧ 16 < k.CodeAlreadyClosed ∧ 16 < k.CodeNodeIsNotLeader

/-- An instance of the application codes, used for concrete evaluation. -/
def sampleCodes : constant :=
  { CodeInvalidStatus := 102, CodeAlreadyClosed := 104, CodeNodeIsNotLeader := 106 }

/-- A non-nil Go `error` as this program can tell errors apart: the sentinel
`io.EOF`, a gRPC status error, any other leaf error, an error wrapping another
one (`Unwrap`), and the `*backoff.PermanentError` wrapper.  A Go `error` that may
be nil is an `Option GoError`. -/
inductive GoError where
  | eof : GoError
  | status (code : Code) (msg : String) : GoError
  | plain (msg : String) : GoError
  | wrapped (msg : String) (inner : GoError) : GoError
  | permanent (inner : GoError) : GoError
deriving DecidableEq, Repr

/-- The status code found by walking the `Unwrap` chain of a non-nil error:
the first gRPC status error decides, `codes.Unknown` when there is none. -/
def GoError.grpcCode : GoError → Code
  | .eof => codes.Unknown
  | .status code _ => code
  | .plain _ => codes.Unknown
  | .wrapped _ inner => inner.grpcCode
  | .permanent inner => inner.grpcCode

/-- The library function `status.Code` of grpc-go: `codes.OK` for a nil error,
the code of a (wrapped) status error, `codes.Unknown` otherwise. -/
def status.Code (err : Option GoError) : Code :=
  match err with
  | none => codes.OK
  | some e => e.grpcCode

/-- The library call `errors.Is(err, io.EOF)` on a non-nil error. -/
def GoError.isEOF : GoError → Bool
  | .eof => true
  | .status _ _ => false
  | .plain _ => false
  | .wrapped _ inner => inner.isEOF
  | .permanent inner => inner.isEOF

/-- The library call `errors.Is(err, io.EOF)`. -/
def errorsIsEOF (err : Option GoError) : Bool :=
  match err with
  | none => false
  | some e => e.isEOF

/-- The function `isRetriable` of `rpc_errors.go`. -/
def isRetriable (k : constant) (err : Option GoError) : Bool :=
  let code := status.Code err
  if code = codes.Unavailable ∨ code = k.CodeInvalidStatus ∨
      code = k.CodeAlreadyClosed ∨ code = k.CodeNodeIsNotLeader then
    true
  else
    false

/-! ## The backoff library (cenkalti/backoff v4) -/

/-- The library function `backoff.Permanent`: nil stays nil, any other error is
wrapped in a `PermanentError`. -/
def backoff.Permanent (err : Option GoError) : Option GoError :=
  match err with
  | none => none
  | some e => some (GoError.permanent e)

/-- The library call `errors.As(err, &permanent)` for `*PermanentError`: the
`Err` field of the first `PermanentError` on the `Unwrap` chain, if there is one. -/
def GoError.asPermanent : GoError → Option GoError
  | .eof => none
  | .status _ _ => none
  | .plain _ => none
  | .wrapped _ inner => inner.asPermanent
  | .permanent inner => some inner

/-- How a backoff policy bound to a context ends the retry loop: `NextBackOff`
returns `Stop` (and `ctx.Err()` is `ctxErr`), or the context is done while the
loop waits `next` for its timer (and `ctx.Err()` is `ctxErr`). -/
inductive BackOffEnd where
  | stop (ctxErr : Option GoError) : BackOffEnd
  | ctxDone (next : Nat) (ctxErr : GoError) : BackOffEnd
deriving DecidableEq, Repr

/-- The behaviour of the `backoff.BackOff` made by `time2.NewBackOff(ctx)` during
one retry loop: the waits that elapse before the request deadline, in order, and
the way the loop is ended after them.  The deadline of the context makes the
list of waits finite. -/
structure BackOff where
  waits : List Nat
  last : BackOffEnd
deriving DecidableEq, Repr

/-- The loop of the library function `backoff.RetryNotify`.  `S` is the state of
the variables captured by the closures `operation` and `notify`.  Each round runs
`operation`; a nil error or a permanent error ends the loop (the latter returns
the wrapped `Err`); otherwise the backoff policy decides. -/
def backoff.retryLoop {S : Type} (operation : S → Option GoError × S)
    (notify : GoError → Nat → S → S) (last : BackOffEnd) : List Nat → S → Option GoError × S
  | waits, s =>
    let r := operation s
    match r.1 with
    | none => (none, r.2)
    | some err =>
      match err.asPermanent with
      | some inner => (some inner, r.2)
      | none =>
        match waits with
        | [] =>
          match last with
          | .stop (some cerr) => (some cerr, r.2)
          | .stop none => (some err, r.2)
          | .ctxDone next cerr => (some cerr, notify err next r.2)
        | next :: rest => backoff.retryLoop operation notify last rest (notify err next r.2)

/-- The library function `backoff.RetryNotify(operation, backOff, notify)`. -/
def backoff.RetryNotify {S : Type} (operation : S → Option GoError × S) (b : BackOff)
    (notify : GoError → Nat → S → S) (s : S) : Option GoError × S :=
  backoff.retryLoop operation notify b.last b.waits s

/-! ## Wire messages -/

/-- The wire message `proto.GetRequest`. -/
structure GetRequest where
  Key : String
  ComparisonType : Nat
  IncludeValue : Bool
  SecondaryIndexName : Option String
deriving DecidableEq, Repr

/-- The wire message `proto.GetResponse`; `Value` is a byte slice. -/
structure GetResponse where
  Status : Nat
  Value : List Nat
  Key : Option String
deriving DecidableEq, Repr

/-- The wire message `proto.ReadRequest`. -/
structure ReadRequest where
  Shard : Option Int
  Gets : List GetRequest
deriving DecidableEq, Repr

/-- The wire message `proto.ReadResponse`. -/
structure ReadResponse where
  Gets : List GetResponse
deriving DecidableEq, Repr

/-! ## Observable events -/

/-- The attributes built by `attrs(requestType, err)` in `metrics/utils.go`. -/
structure Attrs where
  type : String
  result : String
deriving DecidableEq, Repr

/-- What leaves the program, in program order: an invocation of a callback
supplied by the caller (identified by `id`) with its two arguments, and the
records made on the instruments of `Metrics`. -/
inductive Event where
  | invoked (id : Nat) (response : Option GetResponse) (err : Option GoError) : Event
  | opTime (duration : Nat) (attrs : Attrs) : Event
  | opValue (size : Nat) (attrs : Attrs) : Event
  | batchTotalTime (duration : Nat) (attrs : Attrs) : Event
  | batchExecTime (duration : Nat) (attrs : Attrs) : Event
  | batchValue (size : Nat) (attrs : Attrs) : Event
  | batchRequests (count : Nat) (attrs : Attrs) : Event
deriving DecidableEq, Repr

/-- The invocations of caller-supplied callbacks in a list of events, in order:
the callback id and the two arguments it received. -/
def invocations : List Event → List (Nat × Option GetResponse × Option GoError)
  | [] => []
  | Event.invoked id response err :: rest => (id, response, err) :: invocations rest
  | _ :: rest => invocations rest

/-- The outcome of running a method that may panic: the events emitted up to the
end (or up to the panic) and the panic message, if any. -/
structure Run where
  events : List Event
  panicked : Option String
deriving DecidableEq, Repr

/-! ## Metrics (`internal/metrics`) -/

/-- The function `result` of `metrics/utils.go`. -/
def result (err : Option GoError) : String :=
  match err with
  | none => "success"
  | some _ => "failure"

/-- The function `attrs` of `metrics/utils.go`. -/
def attrs (requestType : String) (err : Option GoError) : Attrs :=
  { type := requestType, result := result err }

/-- The Go struct `Metrics`, reduced to the two injected clock functions of
`newMetrics`; the instruments are the `Event` constructors.  Clock readings
never influence control flow and are modelled as pure functions. -/
structure Metrics where
  timeFunc : Unit → Nat
  sinceFunc : Nat → Nat

/-- The closure returned by `Metrics.metricContextFunc(requestType)`: it captures
the request type and the start time read when it was made. -/
structure MetricContext where
  requestType : String
  start : Nat
deriving DecidableEq, Repr

/-- The method `Metrics.metricContextFunc`. -/
def Metrics.metricContextFunc (m : Metrics) (requestType : String) : MetricContext :=
  let start := m.timeFunc ()
  { requestType := requestType, start := start }

/-- Calling the closure returned by `metricContextFunc` with `err`. -/
def MetricContext.call (c : MetricContext) (err : Option GoError) : Nat × Attrs :=
  (c.start, attrs c.requestType err)

/-- A Go function value of type `func(*proto.GetResponse, error)`.  Two kinds of
closure reach a read batch: one supplied by the caller, opaque to this program
and identified by `id`, and the closure built by `Metrics.DecorateGet`, which
captures the metrics object, the callback it decorates and a metric context. -/
inductive GetCallback where
  | user (id : Nat) : GetCallback
  | decorated (m : Metrics) (callback : GetCallback) (metricContext : MetricContext) :
      GetCallback

/-- Invoking a callback with `(response, err)`.  The decorated closure is the
body of the function literal in `Metrics.DecorateGet`. -/
def GetCallback.call : GetCallback → Option GetResponse → Option GoError → List Event
  | .user id, response, err => [Event.invoked id response err]
  | .decorated m callback metricContext, response, err =>
    callback.call response err ++
      (let r := metricContext.call err
       let start := r.1
       let _attrs := r.2
       let size :=
         match response with
         | some resp => resp.Value.length
         | none => 0
       [Event.opTime (m.sinceFunc start) _attrs, Event.opValue size _attrs])

/-- The caller-supplied callback at the core of a callback. -/
def GetCallback.origin : GetCallback → Nat
  | .user id => id
  | .decorated _ callback _ => callback.origin

/-- Modelled from the spec: `model.GetCall` is declared in `internal/model`,
which is not part of the sources at hand.  Spec §3: a call carries the
operation's input fields plus a single-shot callback `(result, error) → void`. -/
structure GetCall where
  Key : String
  ComparisonType : Nat
  IncludeValue : Bool
  SecondaryIndexName : Option String
  Callback : GetCallback

/-- Modelled from the spec: `model.GetCall.ToProto` is declared in
`internal/model`, which is not part of the sources at hand.  Spec §4.5: a
buffered Get call is serialized into the read request; the wire request carries
the call's input fields and not its callback. -/
def GetCall.ToProto (c : GetCall) : GetRequest :=
  { Key := c.Key, ComparisonType := c.ComparisonType, IncludeValue := c.IncludeValue,
    SecondaryIndexName := c.SecondaryIndexName }

/-- Modelled from the spec: `model.Convert` is declared in `internal/model`,
which is not part of the sources at hand.  Spec §4.5: all buffered calls are
serialized preserving order, one wire entry per call. -/
def Convert {T U : Type} (calls : List T) (toProto : T → U) : List U :=
  calls.map toProto

/-- The method `Metrics.DecorateGet`. -/
def Metrics.DecorateGet (m : Metrics) (get : GetCall) : GetCall :=
  let callback := get.Callback
  let metricContext := m.metricContextFunc "get"
  { get with Callback := GetCallback.decorated m callback metricContext }

/-- The function `readMetrics` of `metrics/utils.go`. -/
def readMetrics (response : Option ReadResponse) : Nat × Nat :=
  match response with
  | none => (0, 0)
  | some r => (r.Gets.foldl (fun valueSize get => valueSize + get.Value.length) 0, r.Gets.length)

/-- The closure returned by `Metrics.ReadCallback`: it captures the metrics
object and a metric context. -/
structure ReadCallback where
  m : Metrics
  metricContext : MetricContext

/-- The method `Metrics.ReadCallback`. -/
def Metrics.ReadCallback (m : Metrics) : ReadCallback :=
  { m := m, metricContext := m.metricContextFunc "read" }

/-- Calling the closure returned by `Metrics.ReadCallback`. -/
def ReadCallback.call (c : ReadCallback) (executionStart : Nat) (_request : ReadRequest)
    (response : Option ReadResponse) (err : Option GoError) : List Event :=
  let r := c.metricContext.call err
  let batchStart := r.1
  let attrs := r.2
  let rm := readMetrics response
  [Event.batchTotalTime (c.m.sinceFunc batchStart) attrs,
   Event.batchExecTime (c.m.sinceFunc executionStart) attrs,
   Event.batchValue rm.1 attrs,
   Event.batchRequests rm.2 attrs]

/-! ## The read batch (`internal/batch/read_batch.go`) -/

/-- A server stream `proto.OxiaClient_ReadClient` as `Recv` shows it: the chunks
it yields, in order, and the error `Recv` returns once they are used up
(`io.EOF` at a regular end of stream). -/
structure Stream where
  chunks : List ReadResponse
  final : GoError
deriving DecidableEq, Repr

/-- The result `(stream, err)` of one call of the transport executor. -/
inductive Opened where
  | stream (s : Stream) : Opened
  | failed (err : GoError) : Opened
deriving DecidableEq, Repr

/-- A value passed to `Add(call any)`: one of the four call kinds of
`internal/model`, or any other Go value. -/
inductive Call where
  | get (c : GetCall) : Call
  | put (key : String) (value : List Nat) : Call
  | delete (key : String) : Call
  | deleteRange (minKeyInclusive maxKeyExclusive : String) : Call
  | other (description : String) : Call

/-- The Go struct `readBatch`.  `execute` is the transport executor; what it
returns depends on the state of the network, so it takes the number of times it
has been invoked before by this batch. -/
structure readBatch where
  «namespace» : String
  shardId : Int
  execute : Nat → ReadRequest → Opened
  gets : List GetCall
  start : Nat
  requestTimeout : Nat
  metrics : Metrics
  callback : ReadCallback

/-- The Go struct `readBatchFactory`. -/
structure readBatchFactory where
  «namespace» : String
  execute : Nat → ReadRequest → Opened
  metrics : Metrics
  requestTimeout : Nat

/-- The method `readBatchFactory.newBatch`; `now` is the reading of `time.Now()`. -/
def readBatchFactory.newBatch (b : readBatchFactory) (shardId : Int) (now : Nat) : readBatch :=
  { «namespace» := b.«namespace»
    shardId := shardId
    execute := b.execute
    gets := []
    start := now
    metrics := b.metrics
    callback := b.metrics.ReadCallback
    requestTimeout := b.requestTimeout }

/-- The method `readBatch.CanAdd`. -/
def readBatch.CanAdd (_b : readBatch) (_call : Call) : Bool :=
  true

/-- The method `readBatch.Add`: the batch after the call, and the panic message
when the call panics. -/
def readBatch.Add (b : readBatch) (call : Call) : readBatch × Option String :=
  match call with
  | .get c => ({ b with gets := b.gets ++ [b.metrics.DecorateGet c] }, none)
  | _ => (b, some "invalid call")

/-- The test helper `add` of `utils_test.go`: runs `Add` and recovers a panic. -/
def add (b : readBatch) (call : Call) : readBatch × Bool :=
  let r := b.Add call
  (r.1, r.2.isSome)

/-- Adding a sequence of calls one after the other, as long as none panics. -/
def readBatch.addAll (b : readBatch) : List Call → readBatch × Option String
  | [] => (b, none)
  | call :: rest =>
    match b.Add call with
    | (b1, none) => readBatch.addAll b1 rest
    | (b1, some msg) => (b1, some msg)

/-- The method `readBatch.Size`. -/
def readBatch.Size (b : readBatch) : Nat :=
  b.gets.length

/-- The method `readBatch.toProto`. -/
def readBatch.toProto (b : readBatch) : ReadRequest :=
  { Shard := some b.shardId
    Gets := Convert b.gets GetCall.ToProto }

/-- The receive loop of `readBatch.doRequest`, started with the response
accumulated so far: every chunk is appended; the final error of the stream ends
the loop, with no error when it is `io.EOF`. -/
def readBatch.recvLoop (final : GoError) : List ReadResponse → ReadResponse →
    Option ReadResponse × Option GoError
  | [], response =>
    if errorsIsEOF (some final) then (some response, none) else (some response, some final)
  | recv :: rest, response =>
    readBatch.recvLoop final rest { response with Gets := response.Gets ++ recv.Gets }

/-- The method `readBatch.doRequest`; `attempt` is the number of earlier
invocations of the executor. -/
def readBatch.doRequest (b : readBatch) (attempt : Nat) (request : ReadRequest) :
    Option ReadResponse × Option GoError :=
  match b.execute attempt request with
  | .failed err => (none, some err)
  | .stream stream => readBatch.recvLoop stream.final stream.chunks { Gets := [] }

/-- The variables shared by `doRequestWithRetries` and its closures: the named
results `response` and `err`, the number of executor invocations so far and the
retries announced to `notify`. -/
structure RetryVars where
  response : Option ReadResponse
  err : Option GoError
  attempts : Nat
  notified : List (GoError × Nat)
deriving DecidableEq, Repr

/-- The function literal passed as `operation` in `doRequestWithRetries`. -/
def readBatch.operation (b : readBatch) (k : constant) (request : ReadRequest)
    (v : RetryVars) : Option GoError × RetryVars :=
  let r := b.doRequest v.attempts request
  let v1 := { v with response := r.1, err := r.2, attempts := v.attempts + 1 }
  if !isRetriable k r.2 then (backoff.Permanent r.2, v1) else (r.2, v1)

/-- The function literal passed as `notify` in `doRequestWithRetries` (it logs). -/
def readBatch.notify (err : GoError) (duration : Nat) (v : RetryVars) : RetryVars :=
  { v with notified := v.notified ++ [(err, duration)] }

/-- The method `readBatch.doRequestWithRetries`.  The returned variables hold the
response and the error the method returns, and the number of times the executor
was invoked. -/
def readBatch.doRequestWithRetries (b : readBatch) (k : constant) (backOff : BackOff)
    (request : ReadRequest) : RetryVars :=
  let r := backoff.RetryNotify (b.operation k request) backOff readBatch.notify
    { response := none, err := none, attempts := 0, notified := [] }
  { r.2 with err := r.1 }

/-- The method `readBatch.Fail`. -/
def readBatch.Fail (b : readBatch) (err : Option GoError) : List Event :=
  b.gets.flatMap (fun get => get.Callback.call none err)

/-- The loop of `readBatch.handle` from index `i` on.  `response.Gets[i]` panics
when `response` is nil or has no entry `i`. -/
def readBatch.handleFrom (response : Option ReadResponse) : Nat → List GetCall → Run
  | _, [] => { events := [], panicked := none }
  | i, get :: rest =>
    match response with
    | none => { events := [], panicked := some "nil pointer dereference" }
    | some r =>
      match r.Gets[i]? with
      | none => { events := [], panicked := some "index out of range" }
      | some entry =>
        let tail := readBatch.handleFrom response (i + 1) rest
        { events := get.Callback.call (some entry) none ++ tail.events
          panicked := tail.panicked }

/-- The method `readBatch.handle`. -/
def readBatch.handle (b : readBatch) (response : Option ReadResponse) : Run :=
  readBatch.handleFrom response 0 b.gets

/-- The method `readBatch.Complete`; `now` is the reading of `time.Now()`. -/
def readBatch.Complete (b : readBatch) (k : constant) (backOff : BackOff) (now : Nat) : Run :=
  let executionStart := now
  let request := b.toProto
  let r := b.doRequestWithRetries k backOff request
  let response := r.response
  let err := r.err
  let batchEvents := b.callback.call executionStart request response err
  match err with
  | some _ => { events := batchEvents ++ b.Fail err, panicked := none }
  | none =>
    let h := b.handle response
    { events := batchEvents ++ h.events, panicked := h.panicked }

/-- The batch a factory makes for a shard once the Get calls `calls` have been
added to it, in order. -/
def readBatchFactory.batchOf (f : readBatchFactory) (shardId : Int) (now : Nat)
    (calls : List GetCall) : readBatch :=
  ((f.newBatch shardId now).addAll (calls.map Call.get)).1

/-! ## Sample data for concrete evaluation -/

/-- A metrics object with a fixed clock. -/
def sampleMetrics : Metrics :=
  { timeFunc := fun _ => 100, sinceFunc := fun start => 250 - start }

/-- A Get call of the caller with callback `id`. -/
def userGet (id : Nat) (key : String) : GetCall :=
  { Key := key, ComparisonType := 0, IncludeValue := true, SecondaryIndexName := none,
    Callback := GetCallback.user id }

/-- A response entry holding the one-byte value `v`. -/
def entry (v : Nat) : GetResponse :=
  { Status := 0, Value := [v], Key := none }

/-- A factory over the given executor. -/
def sampleFactory (execute : Nat → ReadRequest → Opened) : readBatchFactory :=
  { «namespace» := "default", execute := execute, metrics := sampleMetrics,
    requestTimeout := 30 }

/-- The batch of shard 7 made by adding the Get calls of callbacks 1 and 2. -/
def sampleBatch (execute : Nat → ReadRequest → Opened) : readBatch :=
  (((sampleFactory execute).newBatch 7 100).addAll
    [Call.get (userGet 1 "a"), Call.get (userGet 2 "b")]).1

/-- An executor whose stream yields one chunk with a single entry and then ends. -/
def shortExecute : Nat → ReadRequest → Opened :=
  fun _ _ => Opened.stream { chunks := [{ Gets := [entry 5] }], final := GoError.eof }

/-- An executor whose stream yields two chunks, one entry each, and then ends. -/
def fullExecute : Nat → ReadRequest → Opened :=
  fun _ _ =>
    Opened.stream { chunks := [{ Gets := [entry 5] }, { Gets := [entry 6] }], final := GoError.eof }

/-- An executor whose stream yields one chunk and then fails with the status
`Internal` (code 13). -/
def brokenExecute : Nat → ReadRequest → Opened :=
  fun _ _ =>
    Opened.stream { chunks := [{ Gets := [entry 5] }], final := GoError.status 13 "internal" }

/-- A backoff policy granting two waits before it stops. -/
def sampleBackOff : BackOff :=
  { waits := [1, 2], last := BackOffEnd.stop none }

/-! ## The write stream (`internal/write_stream.go`) -/

/-- The wire message `proto.WriteRequest`. -/
structure WriteRequest where
  Shard : Option Int
  Puts : List (String × List Nat)
  Deletes : List String
  DeleteRanges : List (String × String)
deriving DecidableEq, Repr

/-- The wire message `proto.WriteResponse`: one status per operation. -/
structure WriteResponse where
  Puts : List Nat
  Deletes : List Nat
  DeleteRanges : List Nat
deriving DecidableEq, Repr

/-- A result handle `concurrent.Future[*proto.WriteResponse]`, identified by the
number `concurrent.NewFuture` gave it. -/
abbrev Future := Nat

/-- What the stream wrapper does to result handles, in program order:
`f.Complete(response)` and `f.Fail(err)`. -/
inductive StreamEvent where
  | completed (f : Future) (response : Option WriteResponse) : StreamEvent
  | failed (f : Future) (err : GoError) : StreamEvent
deriving DecidableEq, Repr

/-- The Go struct `streamWrapper`: the state guarded by its mutex.  The
underlying stream is the environment: what its `Send` and `Recv` return is an
input of the methods below. -/
structure streamWrapper where
  pendingRequests : List Future
  failed : Bool
deriving DecidableEq, Repr

/-- The function `newStreamWrapper`: no pending request, not failed. -/
def newStreamWrapper : streamWrapper :=
  { pendingRequests := [], failed := false }

/-- How `streamWrapper.Send` leaves its locked section: it returns
`(response, err)` at once, or it goes on to `f.Wait(ctx)` on its handle. -/
inductive SendResult where
  | returned (response : Option WriteResponse) (err : Option GoError) : SendResult
  | wait (f : Future) : SendResult
deriving DecidableEq, Repr

/-- The method `streamWrapper.Send`, up to the wait on the handle.  `f` is the
handle made by `concurrent.NewFuture`, `sendErr` what `sw.stream.Send(req)`
returns. -/
def streamWrapper.Send (sw : streamWrapper) (f : Future) (_req : WriteRequest)
    (sendErr : Option GoError) : streamWrapper × SendResult :=
  let sw1 := { sw with pendingRequests := sw.pendingRequests ++ [f] }
  match sendErr with
  | some err => ({ sw1 with failed := true }, SendResult.returned none (some err))
  | none => (sw1, SendResult.wait f)

/-- The method `streamWrapper.handleStreamClosed`, once the context of the stream
is done: the wrapper afterwards and the handles failed. -/
def streamWrapper.handleStreamClosed (sw : streamWrapper) : streamWrapper × List StreamEvent :=
  ({ sw with pendingRequests := [], failed := true },
   sw.pendingRequests.map (fun f => StreamEvent.failed f GoError.eof))

/-- How the loop of `handleResponses` stands: blocked in `Recv`, returned after
a receive error, or stopped by a panic. -/
inductive Dispatcher where
  | running : Dispatcher
  | returned : Dispatcher
  | panicked (msg : String) : Dispatcher
deriving DecidableEq, Repr

/-- The outcome of the dispatcher over some results of `Recv`. -/
structure Dispatch where
  sw : streamWrapper
  events : List StreamEvent
  dispatcher : Dispatcher
deriving DecidableEq, Repr

/-- The method `streamWrapper.handleResponses` over the successive results
`(response, err)` of `sw.stream.Recv()`.  `sw.pendingRequests[0]` panics on an
empty queue. -/
def streamWrapper.handleResponses (sw : streamWrapper) :
    List (Option WriteResponse × Option GoError) → Dispatch
  | [] => { sw := sw, events := [], dispatcher := Dispatcher.running }
  | (response, err) :: rest =>
    match err with
    | some _ =>
      { sw := { sw with failed := true }, events := [], dispatcher := Dispatcher.returned }
    | none =>
      match sw.pendingRequests with
      | [] =>
        { sw := sw, events := [], dispatcher := Dispatcher.panicked "index out of range" }
      | f :: pending =>
        let d := streamWrapper.handleResponses { sw with pendingRequests := pending } rest
        { sw := d.sw
          events := StreamEvent.completed f response :: d.events
          dispatcher := d.dispatcher }

/-- One atomic step on a stream wrapper: a caller runs the locked section of
`Send`, the dispatcher handles one result of `Recv`, or the closure watcher runs
because the context of the stream is done. -/
inductive Op where
  | send (f : Future) (req : WriteRequest) (sendErr : Option GoError) : Op
  | recv (response : Option WriteResponse) (err : Option GoError) : Op
  | closed : Op
deriving DecidableEq, Repr

/-- A stream wrapper with its two background tasks. -/
structure System where
  sw : streamWrapper
  dispatcher : Dispatcher
  events : List StreamEvent
deriving DecidableEq, Repr

/-- The system made by `newStreamWrapper`. -/
def newSystem : System :=
  { sw := newStreamWrapper, dispatcher := Dispatcher.running, events := [] }

/-- One step of the system.  A result of `Recv` is handled only while the
dispatcher runs. -/
def System.step (s : System) : Op → System
  | Op.send f req sendErr => { s with sw := (s.sw.Send f req sendErr).1 }
  | Op.recv response err =>
    match s.dispatcher with
    | Dispatcher.running =>
      let d := s.sw.handleResponses [(response, err)]
      { sw := d.sw, dispatcher := d.dispatcher, events := s.events ++ d.events }
    | _ => s
  | Op.closed =>
    let r := s.sw.handleStreamClosed
    { s with sw := r.1, events := s.events ++ r.2 }

/-- The system after a sequence of steps. -/
def System.run (s : System) (ops : List Op) : System :=
  ops.foldl System.step s

/-- Specification vocabulary: the handles of all requests passed to `Send`, in
call order, whether the stream send succeeded or not. -/
def Op.submitted : List Op → List Future
  | [] => []
  | Op.send f _ _ :: rest => f :: Op.submitted rest
  | _ :: rest => Op.submitted rest

/-- Specification vocabulary: the handles of the requests that went out on the
stream (their stream send succeeded), in send order. -/
def Op.sent : List Op → List Future
  | [] => []
  | Op.send f _ none :: rest => f :: Op.sent rest
  | _ :: rest => Op.sent rest

/-- Specification vocabulary: the number of responses received. -/
def Op.answered : List Op → Nat
  | [] => 0
  | Op.recv _ none :: rest => Op.answered rest + 1
  | _ :: rest => Op.answered rest

/-- Specification vocabulary: the handles of the requests whose response is still
expected: sent on the stream and not yet answered. -/
def Op.expected (ops : List Op) : List Future :=
  (Op.sent ops).drop (Op.answered ops)

/-- Specification vocabulary: a step that is a `Send` or a received response. -/
def Op.IsSendOrResponse : Op → Prop
  | Op.send _ _ _ => True
  | Op.recv _ none => True
  | _ => False

/-- Specification vocabulary: a step that is a `Send` whose stream send succeeds
or a received response. -/
def Op.IsGoodSendOrResponse : Op → Prop
  | Op.send _ _ none => True
  | Op.recv _ none => True
  | _ => False

/-- An empty write request for shard 7. -/
def sampleWrite : WriteRequest :=
  { Shard := some 7, Puts := [], Deletes := [], DeleteRanges := [] }

/-- A write response with one put status. -/
def sampleWritten (status : Nat) : WriteResponse :=
  { Puts := [status], Deletes := [], DeleteRanges := [] }

/-- Specification vocabulary: the steps of `Send` calls that all succeed,
followed by the steps of responses received in order. -/
def Op.sendsThenResponses (sends : List (Future × WriteRequest))
    (responses : List WriteResponse) : List Op :=
  sends.map (fun s => Op.send s.1 s.2 none) ++
    responses.map (fun r => Op.recv (some r) none)

/-! ## The client pool (`internal/provider/client_pool.go`) -/

/-- The constant `AddressSchemaTLS`. -/
def AddressSchemaTLS : String := "tls://"

/-- The library function `strings.HasPrefix`: `s` begins with `pre`.  A Go string
is modelled by a Lean string, compared character by character. -/
def strings.HasPrefix (s pre : String) : Bool :=
  pre.data.isPrefixOf s.data

/-- The library function `strings.CutPrefix`: `s` without the leading `pre` and
whether it was found. -/
def strings.CutPrefix (s pre : String) : String × Bool :=
  if strings.HasPrefix s pre then (String.mk (s.data.drop pre.data.length), true)
  else (s, false)

/-- The library type `tls.Config`, reduced to two of its fields; the zero value
is `&tls.Config{}`. -/
structure TlsConfig where
  ServerName : String := ""
  InsecureSkipVerify : Bool := false
deriving DecidableEq, Repr

/-- The library type `credentials.TransportCredentials`, as made by
`insecure.NewCredentials()` and `credentials.NewTLS(config)`. -/
inductive TransportCredentials where
  | insecure : TransportCredentials
  | tls (config : TlsConfig) : TransportCredentials
deriving DecidableEq, Repr

/-- The field `Info().SecurityProtocol` of a transport credential. -/
def TransportCredentials.SecurityProtocol : TransportCredentials → String
  | .insecure => "insecure"
  | .tls _ => "tls"

/-- The Go struct `clientPool`: the pooled connections by target, the TLS
configuration (nil when the pool was made without one) and the authentication. -/
structure clientPool where
  connections : List (String × Nat)
  tls : Option TlsConfig
  authentication : Option String
deriving DecidableEq, Repr

/-- The function `NewClientPool`. -/
def NewClientPool (tlsConf : Option TlsConfig) (authentication : Option String) : clientPool :=
  { connections := [], tls := tlsConf, authentication := authentication }

/-- The method `clientPool.getActualAddress`. -/
def clientPool.getActualAddress (_cp : clientPool) (target : String) : String :=
  if strings.HasPrefix target AddressSchemaTLS then
    let after := (strings.CutPrefix target AddressSchemaTLS).1
    after
  else
    target

/-- The method `clientPool.getTransportCredential`. -/
def clientPool.getTransportCredential (cp : clientPool) (target : String) :
    TransportCredentials :=
  let tcs := TransportCredentials.insecure
  let tcs := if strings.HasPrefix target AddressSchemaTLS then TransportCredentials.tls {} else tcs
  let tcs :=
    match cp.tls with
    | some conf => TransportCredentials.tls conf
    | none => tcs
  tcs

/-! ## Sample data for retries -/

/-- An executor whose first stream fails with `Unavailable` after one chunk and
whose second stream yields two chunks and ends. -/
def retryExecute : Nat → ReadRequest → Opened :=
  fun attempt _ =>
    if attempt = 0 then
      Opened.stream
        { chunks := [{ Gets := [entry 5] }], final := GoError.status 14 "unavailable" }
    else
      Opened.stream
        { chunks := [{ Gets := [entry 6] }, { Gets := [entry 7] }], final := GoError.eof }

/-! ## Theorems: shard strategy -/

/-- The predicate returned by `Get` holds of a shard exactly when the hash code
of the key lies in the shard's inclusive range. -/
theorem Get_pred_iff {σ : Type} (s : shardStrategyImpl σ) (key : String) (st : σ)
    (shard : Shard) :
    (s.Get key st).1 shard = true ↔ shard.HashRange.Holds (s.hashFunc key st).1 := by
  simp [shardStrategyImpl.Get, HashRange.Holds]

/-- In a list whose members pairwise exclude each other under `p`, and one of
whose members satisfies `p`, exactly one member satisfies `p`. -/
theorem countP_eq_one_of_pairwise {α : Type} (p : α → Bool) (R : α → α → Prop)
    (hR : ∀ a b, R a b → p a = true → p b = true → False) :
    ∀ (l : List α), l.Pairwise R → (∃ x ∈ l, p x = true) → l.countP p = 1 := by
  intro l
  induction l with
  | nil => intro _ h; obtain ⟨x, hx, _⟩ := h; cases hx
  | cons a t ih =>
    intro hpw hex
    rw [List.pairwise_cons] at hpw
    obtain ⟨hat, hpt⟩ := hpw
    by_cases hpa : p a = true
    · have hzero : t.countP p = 0 := by
        rw [List.countP_eq_zero]
        intro y hy hpy
        exact hR a y (hat y hy) hpa hpy
      rw [List.countP_cons_of_pos _ _ hpa, hzero]
    · have hex2 : ∃ x ∈ t, p x = true := by
        obtain ⟨x, hx, hpx⟩ := hex
        rcases List.mem_cons.mp hx with h | h
        · subst h; exact absurd hpx hpa
        · exact ⟨x, h, hpx⟩
      rw [List.countP_cons_of_neg _ _ hpa]
      exact ih hpt hex2

/-- C1: for every key, every 32-bit value the hash function gives it, and every
list of shards whose inclusive hash ranges are pairwise disjoint (no 32-bit hash
code lies in two of them) and jointly cover `[0, 2^32-1]`, the predicate returned
by `Get(key)` is satisfied by exactly one shard of the list. -/
theorem Get_matches_exactly_one {σ : Type} (s : shardStrategyImpl σ) (key : String) (st : σ)
    (shards : List Shard)
    (hcode : (s.hashFunc key st).1 < 2 ^ 32)
    (hdisjoint : shards.Pairwise (fun a b =>
      ∀ c, c < 2 ^ 32 → ¬ (a.HashRange.Holds c ∧ b.HashRange.Holds c)))
    (hcover : ∀ c, c < 2 ^ 32 → ∃ shard ∈ shards, shard.HashRange.Holds c) :
    shards.countP (s.Get key st).1 = 1 := by
  apply countP_eq_one_of_pairwise (s.Get key st).1 _ _ shards hdisjoint
  · obtain ⟨shard, hmem, hin⟩ := hcover _ hcode
    exact ⟨shard, hmem, (Get_pred_iff s key st shard).mpr hin⟩
  · intro a b hab ha hb
    exact hab _ hcode ⟨(Get_pred_iff s key st a).mp ha, (Get_pred_iff s key st b).mp hb⟩

/-- C1 at the two-shard topology `[0, 2^31-1]`, `[2^31, 2^32-1]` with a key that
hashes to `2^31`: exactly one shard matches. -/
theorem Get_matches_exactly_one_witness :
    twoShards.countP ((countingHash (fun _ => 2 ^ 31)).Get "foo" 0).1 = 1 :=
  Get_matches_exactly_one (countingHash (fun _ => 2 ^ 31)) "foo" 0 twoShards
    (by simp [countingHash])
    (by
      unfold twoShards
      refine List.Pairwise.cons ?_ (List.Pairwise.cons ?_ List.Pairwise.nil)
      · intro b hb c _
        rw [List.mem_singleton] at hb
        subst hb
        simp only [hashRange, HashRange.Holds]
        omega
      · intro b hb
        cases hb)
    (by
      intro c hc
      by_cases h : c < 2 ^ 31
      · refine ⟨_, List.mem_cons_self _ _, ?_⟩
        simp only [hashRange, HashRange.Holds]
        omega
      · refine ⟨_, List.mem_cons_of_mem _ (List.mem_cons_self _ _), ?_⟩
        simp only [hashRange, HashRange.Holds]
        omega)

/-- C2: the predicate returned by `Get(key)` is true for a shard if and only if
`MinInclusive <= hashFunc(key) <= MaxInclusive`, both bounds inclusive: a key
hashing exactly to the `MinInclusive` of a range `[code, code+d]`, or exactly to
the `MaxInclusive` of a range `[code-d, code]`, matches.  `Get` calls the hash
function once: the state it leaves is the state left by that one call and the
returned predicate is a pure function, so with a call-counting hash the count
after `Get` and after applying the predicate to any list of shards is one more
than before. -/
theorem Get_iff_in_inclusive_range {σ : Type} (s : shardStrategyImpl σ) (key : String)
    (st : σ) (shard : Shard) (id : Int) (d : Nat) :
    ((s.Get key st).1 shard = true ↔
        shard.HashRange.MinInclusive ≤ (s.hashFunc key st).1 ∧
          (s.hashFunc key st).1 ≤ shard.HashRange.MaxInclusive) ∧
      (s.Get key st).1
          { Id := id
            HashRange := hashRange (s.hashFunc key st).1 ((s.hashFunc key st).1 + d) } = true ∧
      (s.Get key st).1
          { Id := id
            HashRange := hashRange ((s.hashFunc key st).1 - d) (s.hashFunc key st).1 } = true ∧
      (s.Get key st).2 = (s.hashFunc key st).2 ∧
      (∀ (h : String → Nat) (calls : Nat) (shards : List Shard),
        (shards.map ((countingHash h).Get key calls).1,
            ((countingHash h).Get key calls).2) =
          (shards.map (fun sh =>
              decide (sh.HashRange.MinInclusive ≤ h key ∧ h key ≤ sh.HashRange.MaxInclusive)),
            calls + 1)) := by
  refine ⟨?_, ?_, ?_, rfl, ?_⟩
  · simp [shardStrategyImpl.Get]
  · simp [shardStrategyImpl.Get, hashRange]
  · simp [shardStrategyImpl.Get, hashRange]
  · intro h calls shards
    simp [shardStrategyImpl.Get, countingHash]

/-- C3: for ranges with `lo <= hi` (32-bit), `overlap(a, b)` is true iff
`a.lo <= b.hi` and `b.lo <= a.hi`, which holds exactly when some 32-bit hash code
lies in both inclusive ranges; the five cases of `TestOverlap` evaluate as the
test expects. -/
theorem overlap_iff_common_code (a b : HashRange) (ha : a.WellFormed) (hb : b.WellFormed) :
    (overlap a b = true ↔
        a.MinInclusive ≤ b.MaxInclusive ∧ b.MinInclusive ≤ a.MaxInclusive) ∧
      (overlap a b = true ↔ ∃ c, c < 2 ^ 32 ∧ a.Holds c ∧ b.Holds c) ∧
      overlap (hashRange 1 2) (hashRange 3 6) = false ∧
      overlap (hashRange 1 4) (hashRange 3 6) = true ∧
      overlap (hashRange 4 5) (hashRange 3 6) = true ∧
      overlap (hashRange 5 8) (hashRange 3 6) = true ∧
      overlap (hashRange 7 8) (hashRange 3 6) = false := by
  obtain ⟨ha1, ha2⟩ := ha
  obtain ⟨hb1, hb2⟩ := hb
  refine ⟨by simp [overlap], ?_, by decide, by decide, by decide, by decide, by decide⟩
  simp only [overlap, HashRange.Holds, Bool.and_eq_true, decide_eq_true_eq]
  constructor
  · rintro ⟨h1, h2⟩
    refine ⟨max a.MinInclusive b.MinInclusive, ?_, ⟨?_, ?_⟩, ⟨?_, ?_⟩⟩ <;> omega
  · rintro ⟨c, _, ⟨h1, h2⟩, ⟨h3, h4⟩⟩
    omega

/-- C3 at the ranges `[5,8]` and `[3,6]` of `TestOverlap`. -/
theorem overlap_iff_common_code_witness :
    (overlap (hashRange 5 8) (hashRange 3 6) = true ↔
        (hashRange 5 8).MinInclusive ≤ (hashRange 3 6).MaxInclusive ∧
          (hashRange 3 6).MinInclusive ≤ (hashRange 5 8).MaxInclusive) ∧
      (overlap (hashRange 5 8) (hashRange 3 6) = true ↔
        ∃ c, c < 2 ^ 32 ∧ (hashRange 5 8).Holds c ∧ (hashRange 3 6).Holds c) :=
  have h := overlap_iff_common_code (hashRange 5 8) (hashRange 3 6)
    (by simp [HashRange.WellFormed, hashRange]) (by simp [HashRange.WellFormed, hashRange])
  ⟨h.1, h.2.1⟩

/-! ## Theorems: error classification and retries -/

/-- An error is never its own permanent wrapper. -/
theorem GoError.ne_permanent_self (e : GoError) : e ≠ GoError.permanent e := by
  intro h
  have hs := congrArg sizeOf h
  simp at hs

/-- An error whose status code is one of gRPC's own codes other than
`Unavailable` is not retriable, when the application codes lie above them. -/
theorem isRetriable_false_of_grpc (k : constant) (hk : k.Custom) (err : Option GoError)
    (hle : status.Code err ≤ 16) (hne : status.Code err ≠ codes.Unavailable) :
    isRetriable k err = false := by
  obtain ⟨h1, h2, h3⟩ := hk
  unfold isRetriable
  rw [if_neg]
  rintro (h | h | h | h)
  · exact hne h
  · rw [h] at hle; exact absurd h1 (Nat.not_lt.mpr hle)
  · rw [h] at hle; exact absurd h2 (Nat.not_lt.mpr hle)
  · rw [h] at hle; exact absurd h3 (Nat.not_lt.mpr hle)

/-- C4: `isRetriable(err)` is true if and only if the gRPC status code of the
error is one of `Unavailable`, `CodeInvalidStatus`, `CodeAlreadyClosed`,
`CodeNodeIsNotLeader`; with application codes outside the range of gRPC's own
codes, a nil error (code `OK`), a `DeadlineExceeded` or `InvalidArgument` status
and a non-status error (code `Unknown`) are not retriable, and a status error
carrying one of the four codes is. -/
theorem isRetriable_iff (k : constant) (hk : k.Custom) (err : Option GoError) :
    (isRetriable k err = true ↔
        status.Code err = codes.Unavailable ∨ status.Code err = k.CodeInvalidStatus ∨
          status.Code err = k.CodeAlreadyClosed ∨ status.Code err = k.CodeNodeIsNotLeader) ∧
      (isRetriable k err = false ↔
        status.Code err ≠ codes.Unavailable ∧ status.Code err ≠ k.CodeInvalidStatus ∧
          status.Code err ≠ k.CodeAlreadyClosed ∧ status.Code err ≠ k.CodeNodeIsNotLeader) ∧
      (status.Code none = codes.OK ∧ isRetriable k none = false) ∧
      (∀ msg, isRetriable k (some (GoError.status codes.DeadlineExceeded msg)) = false) ∧
      (∀ msg, isRetriable k (some (GoError.status codes.InvalidArgument msg)) = false) ∧
      (∀ msg, status.Code (some (GoError.plain msg)) = codes.Unknown ∧
        isRetriable k (some (GoError.plain msg)) = false) ∧
      (status.Code (some GoError.eof) = codes.Unknown ∧
        isRetriable k (some GoError.eof) = false) ∧
      (∀ msg, isRetriable k (some (GoError.status codes.Unavailable msg)) = true) ∧
      (∀ msg, isRetriable k (some (GoError.status k.CodeInvalidStatus msg)) = true) ∧
      (∀ msg, isRetriable k (some (GoError.status k.CodeAlreadyClosed msg)) = true) ∧
      (∀ msg, isRetriable k (some (GoError.status k.CodeNodeIsNotLeader msg)) = true) := by
  refine ⟨by simp [isRetriable], ?_, ?_, ?_, ?_, ?_, ?_, ?_, ?_, ?_, ?_⟩
  · simp only [isRetriable]
    constructor
    · intro h
      by_contra hc
      apply absurd h
      rw [if_pos]
      · simp
      · by_contra hn
        apply hc
        refine ⟨?_, ?_, ?_, ?_⟩ <;> intro hx <;> exact hn (by simp [hx])
    · rintro ⟨a, b, c, d⟩
      simp [a, b, c, d]
  · exact ⟨rfl, isRetriable_false_of_grpc k hk none (by decide) (by decide)⟩
  · intro msg
    exact isRetriable_false_of_grpc k hk _
      (by simp [status.Code, GoError.grpcCode, codes.DeadlineExceeded])
      (by simp [status.Code, GoError.grpcCode, codes.DeadlineExceeded, codes.Unavailable])
  · intro msg
    exact isRetriable_false_of_grpc k hk _
      (by simp [status.Code, GoError.grpcCode, codes.InvalidArgument])
      (by simp [status.Code, GoError.grpcCode, codes.InvalidArgument, codes.Unavailable])
  · intro msg
    exact ⟨rfl, isRetriable_false_of_grpc k hk _
      (by simp [status.Code, GoError.grpcCode, codes.Unknown])
      (by simp [status.Code, GoError.grpcCode, codes.Unknown, codes.Unavailable])⟩
  · exact ⟨rfl, isRetriable_false_of_grpc k hk _ (by decide) (by decide)⟩
  · intro msg; simp [isRetriable, status.Code, GoError.grpcCode]
  · intro msg; simp [isRetriable, status.Code, GoError.grpcCode]
  · intro msg; simp [isRetriable, status.Code, GoError.grpcCode]
  · intro msg; simp [isRetriable, status.Code, GoError.grpcCode]

/-- C4 at the sample application codes and a `DeadlineExceeded` status error. -/
theorem isRetriable_iff_witness :
    isRetriable sampleCodes (some (GoError.status codes.DeadlineExceeded "deadline")) = false ∧
      isRetriable sampleCodes (some (GoError.status 106 "not leader")) = true :=
  have h := isRetriable_iff sampleCodes (by simp [constant.Custom, sampleCodes])
    (some (GoError.status codes.DeadlineExceeded "deadline"))
  ⟨h.2.2.2.1 "deadline", h.2.2.2.2.2.2.2.2.2.2 "not leader"⟩

/-- C5: when the first attempt of `doRequestWithRetries` fails with an error that
`isRetriable` classifies as not retriable, the transport executor is invoked
exactly once, no retry is announced, and the method returns that same error (not
its `PermanentError` wrapper) together with the response of that attempt. -/
theorem doRequestWithRetries_not_retriable (b : readBatch) (k : constant) (backOff : BackOff)
    (request : ReadRequest) (response : Option ReadResponse) (e : GoError)
    (hfirst : b.doRequest 0 request = (response, some e))
    (hnr : isRetriable k (some e) = false) :
    (b.doRequestWithRetries k backOff request).attempts = 1 ∧
      (b.doRequestWithRetries k backOff request).err = some e ∧
      (b.doRequestWithRetries k backOff request).err ≠ backoff.Permanent (some e) ∧
      (b.doRequestWithRetries k backOff request).response = response ∧
      (b.doRequestWithRetries k backOff request).notified = [] := by
  have hrun : b.doRequestWithRetries k backOff request =
      { response := response, err := some e, attempts := 1, notified := [] } := by
    unfold readBatch.doRequestWithRetries backoff.RetryNotify
    unfold backoff.retryLoop
    simp [readBatch.operation, hfirst, hnr, backoff.Permanent, GoError.asPermanent]
  rw [hrun]
  refine ⟨rfl, rfl, ?_, rfl, rfl⟩
  simp only [backoff.Permanent, ne_eq, Option.some.injEq]
  exact GoError.ne_permanent_self e

/-- C5 at the sample batch whose stream fails with `Internal` after one chunk. -/
theorem doRequestWithRetries_not_retriable_witness :
    ((sampleBatch brokenExecute).doRequestWithRetries sampleCodes sampleBackOff
        (sampleBatch brokenExecute).toProto).attempts = 1 ∧
      ((sampleBatch brokenExecute).doRequestWithRetries sampleCodes sampleBackOff
        (sampleBatch brokenExecute).toProto).err = some (GoError.status 13 "internal") :=
  have h := doRequestWithRetries_not_retriable (sampleBatch brokenExecute) sampleCodes
    sampleBackOff (sampleBatch brokenExecute).toProto (some { Gets := [entry 5] })
    (GoError.status 13 "internal") (by rfl) (by decide)
  ⟨h.1, h.2.1⟩

/-! ## Theorems: the read batch -/

/-- The invocations of a concatenated trace are those of its parts, in order. -/
theorem invocations_append (xs ys : List Event) :
    invocations (xs ++ ys) = invocations xs ++ invocations ys := by
  induction xs with
  | nil => rfl
  | cons x t ih => cases x <;> simp [invocations, ih]

/-- Invoking a callback reaches the caller's callback once, with the same
arguments. -/
theorem invocations_call (cb : GetCallback) (response : Option GetResponse)
    (err : Option GoError) :
    invocations (cb.call response err) = [(cb.origin, response, err)] := by
  induction cb with
  | user id => rfl
  | decorated m callback metricContext ih =>
    simp [GetCallback.call, GetCallback.origin, invocations_append, ih, invocations]

/-- The batch-level metrics callback invokes no caller callback. -/
theorem invocations_ReadCallback (c : ReadCallback) (executionStart : Nat)
    (request : ReadRequest) (response : Option ReadResponse) (err : Option GoError) :
    invocations (c.call executionStart request response err) = [] := by
  simp [ReadCallback.call, invocations]

/-- `Fail` invokes the callback of every buffered call once, in order, with a nil
result and the given error. -/
theorem invocations_Fail (b : readBatch) (err : Option GoError) :
    invocations (b.Fail err) = b.gets.map (fun get => (get.Callback.origin, none, err)) := by
  unfold readBatch.Fail
  induction b.gets with
  | nil => rfl
  | cons g t ih => simp [List.flatMap_cons, invocations_append, invocations_call, ih]

/-- When the response has an entry for every remaining call, the loop of `handle`
does not panic and invokes the callbacks in order with the entries from `i` on. -/
theorem handleFrom_ok (resp : ReadResponse) :
    ∀ (gets : List GetCall) (i : Nat), i + gets.length ≤ resp.Gets.length →
      (readBatch.handleFrom (some resp) i gets).panicked = none ∧
        invocations (readBatch.handleFrom (some resp) i gets).events =
          List.zipWith (fun (get : GetCall) r => (get.Callback.origin, some r, none))
            gets (resp.Gets.drop i) := by
  intro gets
  induction gets with
  | nil => intro i _; simp [readBatch.handleFrom, invocations]
  | cons g t ih =>
    intro i hi
    simp only [List.length_cons] at hi
    have hlt : i < resp.Gets.length := by omega
    have hget : resp.Gets[i]? = some (resp.Gets[i]) := List.getElem?_eq_getElem hlt
    have hdrop : resp.Gets.drop i = resp.Gets[i] :: resp.Gets.drop (i + 1) :=
      List.drop_eq_getElem_cons hlt
    obtain ⟨ih1, ih2⟩ := ih (i + 1) (by omega)
    simp only [readBatch.handleFrom, hget, hdrop, List.zipWith_cons_cons, invocations_append,
      invocations_call, ih1, ih2]
    simp

/-- Adding Get calls never panics; each call is appended, decorated, at the tail. -/
theorem addAll_gets (calls : List GetCall) :
    ∀ b : readBatch, b.addAll (calls.map Call.get) =
      ({ b with gets := b.gets ++ calls.map b.metrics.DecorateGet }, none) := by
  induction calls with
  | nil => intro b; simp [readBatch.addAll]
  | cons c t ih =>
    intro b
    simp only [List.map_cons, readBatch.addAll, readBatch.Add]
    rw [ih]
    simp

/-- The buffered calls of a batch built by a factory are the decorated calls. -/
theorem batchOf_gets (f : readBatchFactory) (shardId : Int) (now : Nat)
    (calls : List GetCall) :
    (f.batchOf shardId now calls).gets = calls.map f.metrics.DecorateGet := by
  simp [readBatchFactory.batchOf, addAll_gets, readBatchFactory.newBatch]

/-- The receive loop always returns a response. -/
theorem recvLoop_response (final : GoError) :
    ∀ (chunks : List ReadResponse) (acc : ReadResponse),
      ∃ resp, (readBatch.recvLoop final chunks acc).1 = some resp := by
  intro chunks
  induction chunks with
  | nil =>
    intro acc
    unfold readBatch.recvLoop
    split <;> exact ⟨acc, rfl⟩
  | cons c t ih =>
    intro acc
    unfold readBatch.recvLoop
    exact ih _

/-- The receive loop appends the entries of all chunks, in order, to the entries
accumulated before; its error is nil exactly when the final error is `io.EOF`. -/
theorem recvLoop_eq (final : GoError) :
    ∀ (chunks : List ReadResponse) (acc : ReadResponse),
      readBatch.recvLoop final chunks acc =
        (some { Gets := acc.Gets ++ chunks.flatMap (fun chunk => chunk.Gets) },
          if final.isEOF then none else some final) := by
  intro chunks
  induction chunks with
  | nil =>
    intro acc
    unfold readBatch.recvLoop
    simp only [errorsIsEOF, List.flatMap_nil, List.append_nil]
    split <;> rfl
  | cons c t ih =>
    intro acc
    unfold readBatch.recvLoop
    rw [ih]
    simp [List.flatMap_cons]

/-- A request that returns no error returns a response. -/
theorem doRequest_response_of_ok (b : readBatch) (attempt : Nat) (request : ReadRequest)
    (h : (b.doRequest attempt request).2 = none) :
    ∃ resp, (b.doRequest attempt request).1 = some resp := by
  unfold readBatch.doRequest at h ⊢
  split at h
  · simp at h
  · exact recvLoop_response _ _ _

/-- When the retry loop returns no error, its last round of `operation` returned
no error, and the variables are those left by that round. -/
theorem retryLoop_none {S : Type} (operation : S → Option GoError × S)
    (notify : GoError → Nat → S → S) (last : BackOffEnd) :
    ∀ (waits : List Nat) (s : S),
      (backoff.retryLoop operation notify last waits s).1 = none →
        ∃ s0, (operation s0).1 = none ∧
          (backoff.retryLoop operation notify last waits s).2 = (operation s0).2 := by
  intro waits
  induction waits with
  | nil =>
    intro s h
    cases hop : (operation s).1 with
    | none => exact ⟨s, hop, by simp [backoff.retryLoop, hop]⟩
    | some err =>
      cases hperm : err.asPermanent with
      | some inner => simp [backoff.retryLoop, hop, hperm] at h
      | none =>
        cases last with
        | stop c => cases c <;> simp [backoff.retryLoop, hop, hperm] at h
        | ctxDone next cerr => simp [backoff.retryLoop, hop, hperm] at h
  | cons w rest ih =>
    intro s h
    cases hop : (operation s).1 with
    | none => exact ⟨s, hop, by simp [backoff.retryLoop, hop]⟩
    | some err =>
      cases hperm : err.asPermanent with
      | some inner => simp [backoff.retryLoop, hop, hperm] at h
      | none =>
        rw [backoff.retryLoop] at h ⊢
        simp only [hop, hperm] at h ⊢
        exact ih _ h

/-- When `doRequestWithRetries` returns no error it returns a response. -/
theorem doRequestWithRetries_response_of_ok (b : readBatch) (k : constant) (backOff : BackOff)
    (request : ReadRequest) (h : (b.doRequestWithRetries k backOff request).err = none) :
    ∃ resp, (b.doRequestWithRetries k backOff request).response = some resp := by
  unfold readBatch.doRequestWithRetries backoff.RetryNotify at h ⊢
  simp only at h ⊢
  obtain ⟨s0, h0, hs⟩ := retryLoop_none _ _ _ _ _ h
  rw [hs]
  have hreq : (b.doRequest s0.attempts request).2 = none := by
    unfold readBatch.operation at h0
    simp only at h0
    split at h0
    · cases hr : (b.doRequest s0.attempts request).2 with
      | none => rfl
      | some e => rw [hr] at h0; simp [backoff.Permanent] at h0
    · exact h0
  obtain ⟨resp, hresp⟩ := doRequest_response_of_ok b s0.attempts request hreq
  refine ⟨resp, ?_⟩
  unfold readBatch.operation
  simp only
  split <;> exact hresp

/-- Decorating a call changes neither its wire request nor the caller's callback
at its core. -/
theorem DecorateGet_same (m : Metrics) (c : GetCall) :
    (m.DecorateGet c).ToProto = c.ToProto ∧
      (m.DecorateGet c).Callback.origin = c.Callback.origin := by
  simp [Metrics.DecorateGet, GetCall.ToProto, GetCallback.origin]

/-- What `Complete` does when the request ends without error: the batch metrics
are recorded and `handle` runs on the response. -/
theorem Complete_of_ok (b : readBatch) (k : constant) (backOff : BackOff) (now : Nat)
    (h : (b.doRequestWithRetries k backOff b.toProto).err = none) :
    (b.Complete k backOff now).panicked =
        (b.handle (b.doRequestWithRetries k backOff b.toProto).response).panicked ∧
      invocations (b.Complete k backOff now).events =
        invocations (b.handle (b.doRequestWithRetries k backOff b.toProto).response).events := by
  unfold readBatch.Complete
  simp only [h, invocations_append, invocations_ReadCallback, List.nil_append, and_self]

/-- What `Complete` does when the request ends with an error: the batch metrics
are recorded and `Fail` runs with that error. -/
theorem Complete_of_err (b : readBatch) (k : constant) (backOff : BackOff) (now : Nat)
    (err : GoError) (h : (b.doRequestWithRetries k backOff b.toProto).err = some err) :
    (b.Complete k backOff now).panicked = none ∧
      invocations (b.Complete k backOff now).events =
        b.gets.map (fun get => (get.Callback.origin, none, some err)) := by
  unfold readBatch.Complete
  simp only [h, invocations_append, invocations_ReadCallback, List.nil_append, invocations_Fail,
    and_self]

/-- C6: for the batch holding the calls `c0..c(N-1)` in the order they were
added, the wire request built by `toProto` carries the batch's shard id and has
exactly `N` Gets, `Gets[i]` being the request of `c_i`; with a response of `N`
entries `handle` does not panic and makes `N` callback invocations, the `i`-th
being the callback of `c_i` with `(response.Gets[i], nil)`; and so does
`Complete` whenever the execution succeeds with that response. -/
theorem readBatch_positional (f : readBatchFactory) (shardId : Int) (now : Nat)
    (calls : List GetCall) (response : ReadResponse)
    (hlen : response.Gets.length = calls.length) :
    ((f.newBatch shardId now).addAll (calls.map Call.get)).2 = none ∧
      (f.batchOf shardId now calls).Size = calls.length ∧
      (f.batchOf shardId now calls).toProto.Shard = some shardId ∧
      (f.batchOf shardId now calls).toProto.Gets.length = calls.length ∧
      (f.batchOf shardId now calls).toProto.Gets = calls.map GetCall.ToProto ∧
      ((f.batchOf shardId now calls).handle (some response)).panicked = none ∧
      invocations ((f.batchOf shardId now calls).handle (some response)).events =
        List.zipWith (fun (c : GetCall) r => (c.Callback.origin, some r, none))
          calls response.Gets ∧
      (invocations ((f.batchOf shardId now calls).handle (some response)).events).length =
        calls.length ∧
      (∀ (k : constant) (backOff : BackOff) (t : Nat),
        ((f.batchOf shardId now calls).doRequestWithRetries k backOff
            (f.batchOf shardId now calls).toProto).err = none →
        ((f.batchOf shardId now calls).doRequestWithRetries k backOff
            (f.batchOf shardId now calls).toProto).response = some response →
          ((f.batchOf shardId now calls).Complete k backOff t).panicked = none ∧
            invocations ((f.batchOf shardId now calls).Complete k backOff t).events =
              List.zipWith (fun (c : GetCall) r => (c.Callback.origin, some r, none))
                calls response.Gets) := by
  have hgets := batchOf_gets f shardId now calls
  have hproto : (f.batchOf shardId now calls).toProto.Gets = calls.map GetCall.ToProto := by
    simp only [readBatch.toProto, Convert, hgets, List.map_map]
    apply List.map_congr_left
    intro c _
    exact (DecorateGet_same f.metrics c).1
  have hhandle := handleFrom_ok response (f.batchOf shardId now calls).gets 0
    (by rw [hgets]; simp [hlen])
  have hzip : List.zipWith (fun (get : GetCall) r => (get.Callback.origin, some r, none))
      (f.batchOf shardId now calls).gets (response.Gets.drop 0) =
      List.zipWith (fun (c : GetCall) r => (c.Callback.origin, some r, (none : Option GoError)))
        calls response.Gets := by
    rw [hgets, List.drop_zero, List.zipWith_map_left]
    rfl
  rw [hzip] at hhandle
  refine ⟨by rw [addAll_gets], ?_, ?_, ?_, hproto, hhandle.1, hhandle.2, ?_, ?_⟩
  · simp [readBatch.Size, hgets]
  · simp [readBatch.toProto, readBatchFactory.batchOf, addAll_gets, readBatchFactory.newBatch]
  · simp [hproto]
  · have h2 := hhandle.2
    unfold readBatch.handle
    rw [h2]
    simp [hlen]
  · intro k backOff t herr hresp
    obtain ⟨h1, h2⟩ := Complete_of_ok _ k backOff t herr
    rw [hresp] at h1 h2
    exact ⟨h1.trans hhandle.1, h2.trans hhandle.2⟩

/-- C6 at the sample factory, the calls of callbacks 1 and 2 and a response of
two entries: the request has two Gets and the callbacks receive entry 5 and
entry 6 in this order. -/
theorem readBatch_positional_witness :
    ((sampleFactory fullExecute).batchOf 7 100 [userGet 1 "a", userGet 2 "b"]).toProto.Gets =
        [(userGet 1 "a").ToProto, (userGet 2 "b").ToProto] ∧
      invocations (((sampleFactory fullExecute).batchOf 7 100
          [userGet 1 "a", userGet 2 "b"]).handle (some { Gets := [entry 5, entry 6] })).events =
        [(1, some (entry 5), none), (2, some (entry 6), none)] :=
  have h := readBatch_positional (sampleFactory fullExecute) 7 100
    [userGet 1 "a", userGet 2 "b"] { Gets := [entry 5, entry 6] } (by rfl)
  ⟨h.2.2.2.2.1, h.2.2.2.2.2.2.1⟩

/-- C7, as amended: for every read batch and every outcome of its execution that
is a terminal error or a successful response with at least as many entries as
the batch has calls, `Complete` does not panic and invokes the callback of every
buffered call exactly once, in order, either with a result and a nil error or
with a nil result and a non-nil error. -/
theorem Complete_invokes_each_callback_once (b : readBatch) (k : constant) (backOff : BackOff)
    (now : Nat)
    (hshape : ∀ resp, (b.doRequestWithRetries k backOff b.toProto).err = none →
      (b.doRequestWithRetries k backOff b.toProto).response = some resp →
        b.gets.length ≤ resp.Gets.length) :
    (b.Complete k backOff now).panicked = none ∧
      (invocations (b.Complete k backOff now).events).map (fun inv => inv.1) =
        b.gets.map (fun get => get.Callback.origin) ∧
      (∀ inv ∈ invocations (b.Complete k backOff now).events,
        (inv.2.1.isSome = true ∧ inv.2.2 = none) ∨ (inv.2.1 = none ∧ inv.2.2.isSome = true)) := by
  cases herr : (b.doRequestWithRetries k backOff b.toProto).err with
  | some err =>
    obtain ⟨h1, h2⟩ := Complete_of_err b k backOff now err herr
    refine ⟨h1, ?_, ?_⟩
    · rw [h2, List.map_map]; rfl
    · intro inv hinv
      rw [h2] at hinv
      obtain ⟨g, _, rfl⟩ := List.mem_map.mp hinv
      exact Or.inr ⟨rfl, rfl⟩
  | none =>
    obtain ⟨resp, hresp⟩ := doRequestWithRetries_response_of_ok b k backOff b.toProto herr
    obtain ⟨h1, h2⟩ := Complete_of_ok b k backOff now herr
    rw [hresp] at h1 h2
    obtain ⟨h3, h4⟩ := handleFrom_ok resp b.gets 0 (by have := hshape resp herr hresp; omega)
    have h5 : invocations (b.Complete k backOff now).events =
        List.zipWith (fun (get : GetCall) r => (get.Callback.origin, some r, none))
          b.gets (resp.Gets.drop 0) := h2.trans h4
    have hlen : b.gets.length ≤ resp.Gets.length := hshape resp herr hresp
    refine ⟨h1.trans h3, ?_, ?_⟩
    · rw [h5, List.drop_zero]
      apply List.ext_getElem
      · simp [hlen]
      · intro i hi1 hi2
        simp
    · intro inv hinv
      rw [h5] at hinv
      obtain ⟨i, hi, rfl⟩ := List.getElem_of_mem hinv
      left
      simp

/-- C7 at the sample batch when the stream yields both entries. -/
theorem Complete_invokes_each_callback_once_witness :
    ((sampleBatch fullExecute).Complete sampleCodes sampleBackOff 120).panicked = none ∧
      (invocations ((sampleBatch fullExecute).Complete sampleCodes sampleBackOff 120).events).map
          (fun inv => inv.1) = [1, 2] :=
  have h := Complete_invokes_each_callback_once (sampleBatch fullExecute) sampleCodes
    sampleBackOff 120 (by
      intro resp _ hresp
      have hr : ((sampleBatch fullExecute).doRequestWithRetries sampleCodes sampleBackOff
          (sampleBatch fullExecute).toProto).response = some { Gets := [entry 5, entry 6] } := by
        rfl
      rw [hr] at hresp
      cases hresp
      decide)
  ⟨h.1, h.2.1⟩

/-- C7 fails as stated: the sample batch holds two calls and the stream ends,
without error, after a single entry; `Complete` invokes the first callback and
panics on `response.Gets[1]`, so the callback of the second call is never
invoked. -/
theorem Complete_short_response_panics :
    ((sampleBatch shortExecute).Complete sampleCodes sampleBackOff 120).panicked =
        some "index out of range" ∧
      invocations ((sampleBatch shortExecute).Complete sampleCodes sampleBackOff 120).events =
        [(1, some (entry 5), none)] ∧
      ((sampleBatch shortExecute).gets.map (fun get => get.Callback.origin)) = [1, 2] ∧
      ¬ (((sampleBatch shortExecute).Complete sampleCodes sampleBackOff 120).panicked = none ∧
        (invocations ((sampleBatch shortExecute).Complete sampleCodes sampleBackOff 120).events).map
          (fun inv => inv.1) =
            (sampleBatch shortExecute).gets.map (fun get => get.Callback.origin)) := by
  refine ⟨by rfl, by rfl, by rfl, ?_⟩
  intro h
  have hp : ((sampleBatch shortExecute).Complete sampleCodes sampleBackOff 120).panicked =
      some "index out of range" := by rfl
  rw [hp] at h
  exact absurd h.1 (by simp)

/-- C8: for every read batch whose execution ends in an error, `Complete` does
not panic and invokes the callback of every buffered call, in order, with a nil
result and that same error; no call receives a result, whatever chunks were
received before the error. -/
theorem Complete_fails_every_call (b : readBatch) (k : constant) (backOff : BackOff)
    (now : Nat) (err : GoError)
    (herr : (b.doRequestWithRetries k backOff b.toProto).err = some err) :
    (b.Complete k backOff now).panicked = none ∧
      invocations (b.Complete k backOff now).events =
        b.gets.map (fun get => (get.Callback.origin, none, some err)) ∧
      (invocations (b.Complete k backOff now).events).length = b.Size ∧
      (∀ inv ∈ invocations (b.Complete k backOff now).events,
        inv.2.1 = none ∧ inv.2.2 = some err) := by
  obtain ⟨h1, h2⟩ := Complete_of_err b k backOff now err herr
  refine ⟨h1, h2, ?_, ?_⟩
  · rw [h2]; simp [readBatch.Size]
  · intro inv hinv
    rw [h2] at hinv
    obtain ⟨g, _, rfl⟩ := List.mem_map.mp hinv
    exact ⟨rfl, rfl⟩

/-- C8 at the sample batch whose stream fails with `Internal` after a chunk with
one entry was received: the attempt leaves a partial response, and both
callbacks get a nil result and the `Internal` error. -/
theorem Complete_fails_every_call_witness :
    ((sampleBatch brokenExecute).doRequestWithRetries sampleCodes sampleBackOff
        (sampleBatch brokenExecute).toProto).response = some { Gets := [entry 5] } ∧
      invocations ((sampleBatch brokenExecute).Complete sampleCodes sampleBackOff 120).events =
        [(1, none, some (GoError.status 13 "internal")),
         (2, none, some (GoError.status 13 "internal"))] :=
  have h := Complete_fails_every_call (sampleBatch brokenExecute) sampleCodes sampleBackOff 120
    (GoError.status 13 "internal") (by rfl)
  ⟨by rfl, h.2.1⟩

/-- C9: when the stream opened by the executor yields the chunks `k1..kn` and
then end-of-stream, `doRequest` returns, with no error, one response whose Gets
is `k1.Gets ++ ... ++ kn.Gets` in arrival order (the empty response for `n = 0`);
when the stream instead yields an error other than end-of-stream, `doRequest`
returns that error (with the entries received before it); when opening the
stream fails, `doRequest` returns that error and no response. -/
theorem doRequest_drains_stream (b : readBatch) (attempt : Nat) (request : ReadRequest) :
    (∀ chunks final, b.execute attempt request = Opened.stream ⟨chunks, final⟩ →
        final.isEOF = true →
          b.doRequest attempt request =
            (some { Gets := chunks.flatMap (fun chunk => chunk.Gets) }, none)) ∧
      (∀ chunks, b.execute attempt request = Opened.stream ⟨chunks, GoError.eof⟩ →
          b.doRequest attempt request =
            (some { Gets := chunks.flatMap (fun chunk => chunk.Gets) }, none)) ∧
      (b.execute attempt request = Opened.stream ⟨[], GoError.eof⟩ →
          b.doRequest attempt request = (some { Gets := [] }, none)) ∧
      (∀ chunks final, b.execute attempt request = Opened.stream ⟨chunks, final⟩ →
        final.isEOF = false →
          b.doRequest attempt request =
            (some { Gets := chunks.flatMap (fun chunk => chunk.Gets) }, some final)) ∧
      (∀ err, b.execute attempt request = Opened.failed err →
          b.doRequest attempt request = (none, some err)) := by
  refine ⟨?_, ?_, ?_, ?_, ?_⟩
  · intro chunks final hopen heof
    simp [readBatch.doRequest, hopen, recvLoop_eq, heof]
  · intro chunks hopen
    simp [readBatch.doRequest, hopen, recvLoop_eq, GoError.isEOF]
  · intro hopen
    simp [readBatch.doRequest, hopen, recvLoop_eq, GoError.isEOF]
  · intro chunks final hopen heof
    simp [readBatch.doRequest, hopen, recvLoop_eq, heof]
  · intro err hopen
    simp [readBatch.doRequest, hopen]

/-- C9 at the sample batch: the stream of two chunks gives the two entries in
arrival order and no error; the stream that fails after one chunk gives that
error. -/
theorem doRequest_drains_stream_witness :
    (sampleBatch fullExecute).doRequest 0 (sampleBatch fullExecute).toProto =
        (some { Gets := [entry 5, entry 6] }, none) ∧
      (sampleBatch brokenExecute).doRequest 0 (sampleBatch brokenExecute).toProto =
        (some { Gets := [entry 5] }, some (GoError.status 13 "internal")) :=
  ⟨(doRequest_drains_stream (sampleBatch fullExecute) 0 (sampleBatch fullExecute).toProto).2.1
      [{ Gets := [entry 5] }, { Gets := [entry 6] }] rfl,
    (doRequest_drains_stream (sampleBatch brokenExecute) 0
      (sampleBatch brokenExecute).toProto).2.2.2.1
      [{ Gets := [entry 5] }] (GoError.status 13 "internal") rfl rfl⟩

/-- C10: for every read batch and every call that is not a Get call, `Add` panics
(the test helper `add` reports it) and leaves the batch, its buffered calls and
its `Size` unchanged; a following `Add` of a Get call does not panic, appends the
decorated call at the tail and raises `Size` by exactly one. -/
theorem Add_rejects_other_calls (b : readBatch) (call : Call) (c : GetCall)
    (hcall : ∀ g, call ≠ Call.get g) :
    (b.Add call).2 = some "invalid call" ∧
      (add b call).2 = true ∧
      (b.Add call).1 = b ∧
      (b.Add call).1.gets = b.gets ∧
      (b.Add call).1.Size = b.Size ∧
      ((b.Add call).1.Add (Call.get c)).2 = none ∧
      (add (add b call).1 (Call.get c)).2 = false ∧
      ((b.Add call).1.Add (Call.get c)).1.gets = b.gets ++ [b.metrics.DecorateGet c] ∧
      ((b.Add call).1.Add (Call.get c)).1.Size = b.Size + 1 := by
  cases call with
  | get g => exact absurd rfl (hcall g)
  | put key value => simp [readBatch.Add, add, readBatch.Size]
  | delete key => simp [readBatch.Add, add, readBatch.Size]
  | deleteRange lo hi => simp [readBatch.Add, add, readBatch.Size]
  | other d => simp [readBatch.Add, add, readBatch.Size]

/-- C10 at the sample batch (two buffered calls) and a Put call: `Add` panics,
`Size` stays 2, and a Get call added next makes it 3. -/
theorem Add_rejects_other_calls_witness :
    (add (sampleBatch fullExecute) (Call.put "a" [1])).2 = true ∧
      ((sampleBatch fullExecute).Add (Call.put "a" [1])).1.Size = 2 ∧
      ((((sampleBatch fullExecute).Add (Call.put "a" [1])).1.Add
        (Call.get (userGet 3 "c"))).1).Size = 3 :=
  have h := Add_rejects_other_calls (sampleBatch fullExecute) (Call.put "a" [1])
    (userGet 3 "c") (by intro g hg; cases hg)
  ⟨h.2.1, h.2.2.2.2.1, h.2.2.2.2.2.2.2.2⟩

/-! ## Theorems: the write stream -/

/-- Successful `Send` steps append their handles to the queue, in order, and
change nothing else. -/
theorem run_sends (sends : List (Future × WriteRequest)) :
    ∀ s : System, s.run (sends.map (fun x => Op.send x.1 x.2 none)) =
      { s with sw := { s.sw with
          pendingRequests := s.sw.pendingRequests ++ sends.map (fun x => x.1) } } := by
  induction sends with
  | nil => intro s; simp [System.run]
  | cons x t ih =>
    intro s
    have h := ih (s.step (Op.send x.1 x.2 none))
    simp only [System.run, List.map_cons, List.foldl_cons] at h ⊢
    rw [h]
    simp [System.step, streamWrapper.Send]

/-- Responses received while at least as many handles are pending complete the
oldest handles in order and leave the others queued. -/
theorem run_responses (responses : List WriteResponse) :
    ∀ s : System, s.dispatcher = Dispatcher.running →
      responses.length ≤ s.sw.pendingRequests.length →
        s.run (responses.map (fun r => Op.recv (some r) none)) =
          { sw := { s.sw with pendingRequests := s.sw.pendingRequests.drop responses.length }
            dispatcher := Dispatcher.running
            events := s.events ++
              List.zipWith (fun f r => StreamEvent.completed f (some r))
                s.sw.pendingRequests responses } := by
  induction responses with
  | nil =>
    intro s hrun _
    cases s
    simp only at hrun
    simp [System.run, hrun]
  | cons r t ih =>
    intro s hrun hlen
    cases hq : s.sw.pendingRequests with
    | nil => rw [hq] at hlen; simp at hlen
    | cons f q =>
      have hstep : s.step (Op.recv (some r) none) =
          { sw := { s.sw with pendingRequests := q }
            dispatcher := Dispatcher.running
            events := s.events ++ [StreamEvent.completed f (some r)] } := by
        simp [System.step, hrun, streamWrapper.handleResponses, hq]
      have h := ih (s.step (Op.recv (some r) none)) (by rw [hstep])
        (by rw [hstep]; rw [hq] at hlen; simpa using hlen)
      simp only [System.run, List.map_cons, List.foldl_cons] at h ⊢
      rw [h, hstep]
      simp

/-- C11: for `n` successful `Send` calls `R1..Rn` issued in that order on a new
stream wrapper, followed by `k <= n` responses received in order, the `j`-th
response completes the handle of `Rj` (the completions happen in send order), the
pending queue then holds exactly the handles of `R(k+1)..Rn` in send order, and
the dispatcher is still running on a stream that is not failed. -/
theorem stream_fifo (sends : List (Future × WriteRequest)) (responses : List WriteResponse)
    (hk : responses.length ≤ sends.length) :
    (newSystem.run (Op.sendsThenResponses sends responses)).events =
        List.zipWith (fun (s : Future × WriteRequest) r => StreamEvent.completed s.1 (some r))
          sends responses ∧
      (newSystem.run (Op.sendsThenResponses sends responses)).events.length =
        responses.length ∧
      (newSystem.run (Op.sendsThenResponses sends responses)).sw.pendingRequests =
        (sends.drop responses.length).map (fun s => s.1) ∧
      (newSystem.run (Op.sendsThenResponses sends responses)).dispatcher =
        Dispatcher.running ∧
      (newSystem.run (Op.sendsThenResponses sends responses)).sw.failed = false := by
  have hrun : newSystem.run (Op.sendsThenResponses sends responses) =
      { sw := { pendingRequests := (sends.map (fun x => x.1)).drop responses.length
                failed := false }
        dispatcher := Dispatcher.running
        events := List.zipWith (fun f r => StreamEvent.completed f (some r))
          (sends.map (fun x => x.1)) responses } := by
    unfold Op.sendsThenResponses
    rw [System.run, List.foldl_append]
    have h1 := run_sends sends newSystem
    rw [System.run] at h1
    rw [h1]
    have h2 := run_responses responses
      { newSystem with sw := { newSystem.sw with
          pendingRequests := newSystem.sw.pendingRequests ++ sends.map (fun x => x.1) } }
      rfl (by simp [newSystem, newStreamWrapper, hk])
    rw [System.run] at h2
    rw [h2]
    simp [newSystem, newStreamWrapper]
  rw [hrun]
  refine ⟨?_, ?_, ?_, rfl, rfl⟩
  · simp only [List.zipWith_map_left]
  · simp [hk]
  · simp only [List.map_drop]

/-- C11 at three sends answered by two responses: the handles 1 and 2 are
completed in this order and handle 3 stays pending. -/
theorem stream_fifo_witness :
    (newSystem.run (Op.sendsThenResponses
        [(1, sampleWrite), (2, sampleWrite), (3, sampleWrite)]
        [sampleWritten 0, sampleWritten 1])).events =
        [StreamEvent.completed 1 (some (sampleWritten 0)),
         StreamEvent.completed 2 (some (sampleWritten 1))] ∧
      (newSystem.run (Op.sendsThenResponses
        [(1, sampleWrite), (2, sampleWrite), (3, sampleWrite)]
        [sampleWritten 0, sampleWritten 1])).sw.pendingRequests = [3] :=
  have h := stream_fifo [(1, sampleWrite), (2, sampleWrite), (3, sampleWrite)]
    [sampleWritten 0, sampleWritten 1] (by decide)
  ⟨h.1, h.2.2.1⟩

/-- C12: for a stream wrapper with `K >= 0` pending entries at the moment the
context of the stream terminates, `handleStreamClosed` fails each of the `K`
pending handles exactly once with the end-of-stream error, in queue order, and
afterwards the pending queue is empty and the stream is marked failed. -/
theorem handleStreamClosed_fails_all (sw : streamWrapper) :
    sw.handleStreamClosed.2 =
        sw.pendingRequests.map (fun f => StreamEvent.failed f GoError.eof) ∧
      sw.handleStreamClosed.2.length = sw.pendingRequests.length ∧
      (∀ f, sw.handleStreamClosed.2.count (StreamEvent.failed f GoError.eof) =
        sw.pendingRequests.count f) ∧
      (∀ f response, StreamEvent.completed f response ∉ sw.handleStreamClosed.2) ∧
      sw.handleStreamClosed.1.pendingRequests = [] ∧
      sw.handleStreamClosed.1.failed = true := by
  refine ⟨rfl, by simp [streamWrapper.handleStreamClosed], ?_, ?_, rfl, rfl⟩
  · intro f
    simp only [streamWrapper.handleStreamClosed]
    exact List.count_map_of_injective sw.pendingRequests
      (fun g => StreamEvent.failed g GoError.eof)
      (fun a b hab => by cases hab; rfl) f
  · intro f response h
    simp [streamWrapper.handleStreamClosed] at h

/-- C13 does not hold of the code: on an empty pending queue a received response
makes `handleResponses` evaluate `sw.pendingRequests[0]`, which is out of range;
the dispatcher panics and completes no handle.  This happens with no request
outstanding, and also when the closure watcher has cleared the queue of a
pending request before the response to it is handled. -/
theorem handleResponses_empty_queue_panics (failed : Bool) (response : Option WriteResponse)
    (rest : List (Option WriteResponse × Option GoError)) :
    streamWrapper.handleResponses { pendingRequests := [], failed := failed }
        ((response, none) :: rest) =
      { sw := { pendingRequests := [], failed := failed }
        events := []
        dispatcher := Dispatcher.panicked "index out of range" } ∧
      (newSystem.run [Op.recv (some (sampleWritten 0)) none]).dispatcher =
        Dispatcher.panicked "index out of range" ∧
      (newSystem.run [Op.send 1 sampleWrite none, Op.closed,
        Op.recv (some (sampleWritten 0)) none]).dispatcher =
        Dispatcher.panicked "index out of range" ∧
      (newSystem.run [Op.send 1 sampleWrite none, Op.closed,
        Op.recv (some (sampleWritten 0)) none]).events =
        [StreamEvent.failed 1 GoError.eof] := by
  refine ⟨by simp [streamWrapper.handleResponses], by rfl, by rfl, by rfl⟩

/-- A dispatcher that has returned or panicked stays so. -/
theorem run_dispatcher_stopped (ops : List Op) :
    ∀ s : System, s.dispatcher ≠ Dispatcher.running → (s.run ops).dispatcher = s.dispatcher := by
  induction ops with
  | nil => intro s _; rfl
  | cons op t ih =>
    intro s hs
    have hstep : (s.step op).dispatcher = s.dispatcher := by
      cases op with
      | send f req e => rfl
      | recv r e =>
        cases hd : s.dispatcher with
        | running => exact absurd hd hs
        | returned => simp [System.step, hd]
        | panicked msg => simp [System.step, hd]
      | closed => rfl
    have h := ih (s.step op) (by rw [hstep]; exact hs)
    simp only [System.run, List.foldl_cons] at h ⊢
    rw [h, hstep]

/-- While the dispatcher runs, over `Send` calls and received responses, the
queue holds the handles that were pending before followed by those of all `Send`
calls, less one handle from the head per response received. -/
theorem run_pending (ops : List Op) (hops : ∀ op ∈ ops, op.IsSendOrResponse) :
    ∀ s : System, s.dispatcher = Dispatcher.running →
      (s.run ops).dispatcher = Dispatcher.running →
        (s.run ops).sw.pendingRequests =
          (s.sw.pendingRequests ++ Op.submitted ops).drop (Op.answered ops) := by
  induction ops with
  | nil => intro s _ _; simp [System.run, Op.submitted, Op.answered]
  | cons op t ih =>
    intro s hs hend
    have ht : ∀ op ∈ t, op.IsSendOrResponse := fun o ho => hops o (List.mem_cons_of_mem _ ho)
    have hop := hops op (List.mem_cons_self _ _)
    simp only [System.run, List.foldl_cons] at hend ⊢
    cases op with
    | send f req e =>
      have h := ih ht (s.step (Op.send f req e)) hs hend
      simp only [System.run] at h
      rw [h]
      cases e <;> simp [System.step, streamWrapper.Send, Op.submitted, Op.answered]
    | recv r e =>
      cases e with
      | some err => exact absurd hop (by simp [Op.IsSendOrResponse])
      | none =>
        cases hq : s.sw.pendingRequests with
        | nil =>
          have hp : (s.step (Op.recv r none)).dispatcher =
              Dispatcher.panicked "index out of range" := by
            simp [System.step, hs, streamWrapper.handleResponses, hq]
          have hstay := run_dispatcher_stopped t (s.step (Op.recv r none)) (by rw [hp]; simp)
          simp only [System.run] at hstay
          rw [hstay, hp] at hend
          cases hend
        | cons f q =>
          have hstep : s.step (Op.recv r none) =
              { sw := { s.sw with pendingRequests := q }
                dispatcher := Dispatcher.running
                events := s.events ++ [StreamEvent.completed f r] } := by
            simp [System.step, hs, streamWrapper.handleResponses, hq]
          have h := ih ht (s.step (Op.recv r none)) (by rw [hstep]) hend
          simp only [System.run] at h
          rw [h, hstep]
          simp [Op.submitted, Op.answered]
    | closed => exact absurd hop (by simp [Op.IsSendOrResponse])

/-- When every stream send succeeds, the requests passed to `Send` are the
requests sent on the stream. -/
theorem submitted_eq_sent (ops : List Op) (hops : ∀ op ∈ ops, op.IsGoodSendOrResponse) :
    Op.submitted ops = Op.sent ops := by
  induction ops with
  | nil => rfl
  | cons op t ih =>
    have ht := ih (fun o ho => hops o (List.mem_cons_of_mem _ ho))
    have hop := hops op (List.mem_cons_self _ _)
    cases op with
    | send f req e =>
      cases e with
      | none => simp [Op.submitted, Op.sent, ht]
      | some err => exact absurd hop (by simp [Op.IsGoodSendOrResponse])
    | recv r e => cases e <;> simp [Op.submitted, Op.sent, ht]
    | closed => simp [Op.submitted, Op.sent, ht]

/-- C14, as amended: for every sequence of `Send` calls (whose stream send may
succeed or fail) and received responses in which no response arrives on an empty
queue, the pending queue equals, at every point of the sequence and in call
order, the handles of all requests passed to `Send` less one handle from the
head per response received; when every stream send succeeds these are exactly the
handles of the requests whose response is still expected. -/
theorem pending_queue_invariant (ops : List Op) (hops : ∀ op ∈ ops, op.IsSendOrResponse)
    (hrun : (newSystem.run ops).dispatcher = Dispatcher.running) :
    (∀ pre suf, ops = pre ++ suf →
        (newSystem.run pre).sw.pendingRequests =
          (Op.submitted pre).drop (Op.answered pre)) ∧
      (newSystem.run ops).sw.pendingRequests = (Op.submitted ops).drop (Op.answered ops) ∧
      ((∀ op ∈ ops, op.IsGoodSendOrResponse) →
        (newSystem.run ops).sw.pendingRequests = Op.expected ops) := by
  have hall : ∀ pre suf, ops = pre ++ suf →
      (newSystem.run pre).sw.pendingRequests =
        (Op.submitted pre).drop (Op.answered pre) := by
    intro pre suf hsplit
    have hpre : ∀ op ∈ pre, op.IsSendOrResponse := by
      intro op hop
      exact hops op (by rw [hsplit]; exact List.mem_append_left _ hop)
    have hrunning : (newSystem.run pre).dispatcher = Dispatcher.running := by
      by_contra hne
      have hstay := run_dispatcher_stopped suf (newSystem.run pre) hne
      have hcomp : (newSystem.run pre).run suf = newSystem.run ops := by
        rw [hsplit]
        simp [System.run, List.foldl_append]
      rw [hcomp, hrun] at hstay
      exact hne hstay.symm
    have h := run_pending pre hpre newSystem rfl hrunning
    simpa [newSystem, newStreamWrapper] using h
  have hfinal := hall ops [] (by simp)
  refine ⟨hall, hfinal, ?_⟩
  intro hgood
  rw [hfinal, Op.expected, submitted_eq_sent ops hgood]

/-- C14, as amended, at a successful `Send`, a `Send` whose stream send fails and
one response: the handle of the failed send is what the queue holds. -/
theorem pending_queue_invariant_witness :
    (newSystem.run [Op.send 1 sampleWrite none,
        Op.send 2 sampleWrite (some (GoError.status 14 "unavailable")),
        Op.recv (some (sampleWritten 0)) none]).sw.pendingRequests = [2] :=
  (pending_queue_invariant [Op.send 1 sampleWrite none,
      Op.send 2 sampleWrite (some (GoError.status 14 "unavailable")),
      Op.recv (some (sampleWritten 0)) none]
    (by
      intro op hop
      simp only [List.mem_cons, List.mem_singleton, List.not_mem_nil, or_false] at hop
      rcases hop with h | h | h <;> subst h <;> trivial)
    (by rfl)).2.1

/-- C14 fails as stated: after a single `Send` whose stream send fails, no
response is expected, yet the queue holds the handle of that request; a later
response completes this handle, and so does the closure watcher fail it. -/
theorem failed_send_leaves_handle :
    Op.expected [Op.send 1 sampleWrite (some (GoError.status 14 "unavailable"))] = [] ∧
      (newSystem.run
        [Op.send 1 sampleWrite (some (GoError.status 14 "unavailable"))]).sw.pendingRequests =
        [1] ∧
      (newSystem.run
        [Op.send 1 sampleWrite (some (GoError.status 14 "unavailable"))]).sw.pendingRequests ≠
        Op.expected [Op.send 1 sampleWrite (some (GoError.status 14 "unavailable"))] ∧
      (newSystem.run [Op.send 1 sampleWrite (some (GoError.status 14 "unavailable")),
        Op.recv (some (sampleWritten 0)) none]).events =
        [StreamEvent.completed 1 (some (sampleWritten 0))] ∧
      (newSystem.run [Op.send 1 sampleWrite (some (GoError.status 14 "unavailable")),
        Op.closed]).events = [StreamEvent.failed 1 GoError.eof] := by
  refine ⟨by rfl, by rfl, by decide, by rfl, by rfl⟩

/-- C17: when the underlying stream send fails, `Send` marks the stream failed
and returns a nil response with the send error at once, without waiting on the
handle; the handle it appended stays at the tail of the pending queue, which is
one entry longer than before and otherwise unchanged. -/
theorem Send_failure_keeps_handle (sw : streamWrapper) (f : Future) (req : WriteRequest)
    (err : GoError) :
    (sw.Send f req (some err)).2 = SendResult.returned none (some err) ∧
      (sw.Send f req (some err)).2 ≠ SendResult.wait f ∧
      (sw.Send f req (some err)).1.failed = true ∧
      (sw.Send f req (some err)).1.pendingRequests = sw.pendingRequests ++ [f] ∧
      (sw.Send f req (some err)).1.pendingRequests.length = sw.pendingRequests.length + 1 ∧
      (sw.Send f req (some err)).1.pendingRequests.take sw.pendingRequests.length =
        sw.pendingRequests ∧
      (sw.Send f req (some err)).1.pendingRequests.getLast? = some f := by
  refine ⟨rfl, by simp [streamWrapper.Send], rfl, rfl, ?_, ?_, ?_⟩ <;>
    simp [streamWrapper.Send]

/-- C19: when the receive of the stream returns an error, `handleResponses`
marks the stream failed and stops; it completes or fails no handle and leaves the
pending queue exactly as it was, whatever is received later; the closure watcher
then fails exactly the handles that were pending. -/
theorem handleResponses_recv_error (sw : streamWrapper) (response : Option WriteResponse)
    (err : GoError) (rest : List (Option WriteResponse × Option GoError)) :
    (sw.handleResponses ((response, some err) :: rest)).dispatcher = Dispatcher.returned ∧
      (sw.handleResponses ((response, some err) :: rest)).events = [] ∧
      (sw.handleResponses ((response, some err) :: rest)).sw.failed = true ∧
      (sw.handleResponses ((response, some err) :: rest)).sw.pendingRequests =
        sw.pendingRequests ∧
      (sw.handleResponses ((response, some err) :: rest)).sw.handleStreamClosed.2 =
        sw.pendingRequests.map (fun f => StreamEvent.failed f GoError.eof) ∧
      (sw.handleResponses ((response, some err) :: rest)).sw.handleStreamClosed.1.pendingRequests =
        [] := by
  refine ⟨?_, ?_, ?_, ?_, ?_, ?_⟩ <;>
    simp [streamWrapper.handleResponses, streamWrapper.handleStreamClosed]

/-! ## Theorems: the client pool -/

/-- A target has the prefix `pre` exactly when it is `pre` followed by some
rest. -/
theorem HasPrefix_iff (s pre : String) :
    strings.HasPrefix s pre = true ↔ ∃ rest : String, s = pre ++ rest := by
  unfold strings.HasPrefix
  rw [List.isPrefixOf_iff_prefix]
  constructor
  · rintro ⟨t, ht⟩
    refine ⟨String.mk t, ?_⟩
    apply String.ext
    simp [ht]
  · rintro ⟨rest, rfl⟩
    exact ⟨rest.data, by simp⟩

/-- Cutting the prefix `pre` off `pre ++ rest` leaves `rest`. -/
theorem CutPrefix_append (pre rest : String) :
    strings.CutPrefix (pre ++ rest) pre = (rest, true) := by
  have h : strings.HasPrefix (pre ++ rest) pre = true := (HasPrefix_iff _ _).mpr ⟨rest, rfl⟩
  simp [strings.CutPrefix, h]

/-- C15: `getActualAddress` returns the target with its leading `tls://` removed
when the target starts with `tls://` and the target unchanged otherwise; only one
leading occurrence of the scheme is removed; `tls://xxxxaa:6648` gives
`xxxxaa:6648` and `xxxxaaa:6649` gives `xxxxaaa:6649`. -/
theorem getActualAddress_strips_scheme (cp : clientPool) (target rest : String) :
    cp.getActualAddress (AddressSchemaTLS ++ rest) = rest ∧
      ((∃ r : String, target = AddressSchemaTLS ++ r ∧ cp.getActualAddress target = r) ∨
        ((¬ ∃ r : String, target = AddressSchemaTLS ++ r) ∧
          cp.getActualAddress target = target)) ∧
      cp.getActualAddress (AddressSchemaTLS ++ (AddressSchemaTLS ++ rest)) =
        AddressSchemaTLS ++ rest ∧
      cp.getActualAddress "tls://xxxxaa:6648" = "xxxxaa:6648" ∧
      cp.getActualAddress "xxxxaaa:6649" = "xxxxaaa:6649" := by
  have hcut : ∀ r : String, cp.getActualAddress (AddressSchemaTLS ++ r) = r := by
    intro r
    have h : strings.HasPrefix (AddressSchemaTLS ++ r) AddressSchemaTLS = true :=
      (HasPrefix_iff _ _).mpr ⟨r, rfl⟩
    simp [clientPool.getActualAddress, h, CutPrefix_append]
  refine ⟨hcut rest, ?_, hcut _, ?_, ?_⟩
  · by_cases h : strings.HasPrefix target AddressSchemaTLS = true
    · obtain ⟨r, hr⟩ := (HasPrefix_iff _ _).mp h
      exact Or.inl ⟨r, hr, by rw [hr]; exact hcut r⟩
    · refine Or.inr ⟨fun hex => h ((HasPrefix_iff _ _).mpr hex), ?_⟩
      simp [clientPool.getActualAddress, h]
  · unfold clientPool.getActualAddress
    decide
  · unfold clientPool.getActualAddress
    decide

/-- C16: a client pool created without a TLS configuration returns TLS
credentials if and only if the target starts with `tls://` and insecure
credentials otherwise; a pool created with a TLS configuration returns TLS
credentials, made from that configuration, for every target. -/
theorem getTransportCredential_cases (target : String) (authentication : Option String)
    (conf : TlsConfig) :
    (((NewClientPool none authentication).getTransportCredential target).SecurityProtocol =
        "tls" ↔ ∃ r : String, target = AddressSchemaTLS ++ r) ∧
      ((NewClientPool none authentication).getTransportCredential target =
        TransportCredentials.tls {} ↔ strings.HasPrefix target AddressSchemaTLS = true) ∧
      ((NewClientPool none authentication).getTransportCredential target =
        TransportCredentials.insecure ↔ ¬ ∃ r : String, target = AddressSchemaTLS ++ r) ∧
      (NewClientPool (some conf) authentication).getTransportCredential target =
        TransportCredentials.tls conf ∧
      ((NewClientPool (some conf) authentication).getTransportCredential target).SecurityProtocol =
        "tls" ∧
      ((NewClientPool none none).getTransportCredential "tls://xxxxaa:6648").SecurityProtocol =
        "tls" ∧
      ((NewClientPool none none).getTransportCredential "xxxxaaa:6649").SecurityProtocol =
        "insecure" := by
  refine ⟨?_, ?_, ?_, rfl, rfl, by decide, by decide⟩
  · rw [← HasPrefix_iff]
    by_cases h : strings.HasPrefix target AddressSchemaTLS = true
    · simp [clientPool.getTransportCredential, NewClientPool, h,
        TransportCredentials.SecurityProtocol]
    · simp only [clientPool.getTransportCredential, NewClientPool, h,
        TransportCredentials.SecurityProtocol]
      simp
  · by_cases h : strings.HasPrefix target AddressSchemaTLS = true
    · simp [clientPool.getTransportCredential, NewClientPool, h]
    · simp [clientPool.getTransportCredential, NewClientPool, h]
  · rw [← HasPrefix_iff]
    by_cases h : strings.HasPrefix target AddressSchemaTLS = true
    · simp [clientPool.getTransportCredential, NewClientPool, h]
    · simp [clientPool.getTransportCredential, NewClientPool, h]

/-! ## Theorems: retries of the read batch -/

/-- The retry loop over `d` failed attempts with retriable errors followed by an
attempt that succeeds: it ends with no error, and its variables hold the response
of the last attempt. -/
theorem retryLoop_retries (b : readBatch) (k : constant) (request : ReadRequest)
    (last : BackOffEnd) (n : Nat) (partials : Nat → Option ReadResponse)
    (errs : Nat → GoError) (resp : ReadResponse)
    (hfail : ∀ i, i < n → b.doRequest i request = (partials i, some (errs i)) ∧
      isRetriable k (some (errs i)) = true ∧ (errs i).asPermanent = none)
    (hlast : b.doRequest n request = (some resp, none)) :
    ∀ (d : Nat) (waits : List Nat) (v : RetryVars), v.attempts + d = n → d ≤ waits.length →
      (backoff.retryLoop (b.operation k request) readBatch.notify last waits v).1 = none ∧
        (backoff.retryLoop (b.operation k request) readBatch.notify last waits v).2.response =
          some resp ∧
        (backoff.retryLoop (b.operation k request) readBatch.notify last waits v).2.attempts =
          n + 1 := by
  intro d
  induction d with
  | zero =>
    intro waits v hv _
    have ha : v.attempts = n := by omega
    have hop : b.operation k request v =
        (none, { v with response := some resp, err := none, attempts := n + 1 }) := by
      unfold readBatch.operation
      simp only [ha, hlast]
      split <;> simp [backoff.Permanent]
    rw [backoff.retryLoop]
    simp [hop]
  | succ d ih =>
    intro waits v hv hw
    cases waits with
    | nil => simp at hw
    | cons w rest =>
      obtain ⟨h1, h2, h3⟩ := hfail v.attempts (by omega)
      have hop : b.operation k request v =
          (some (errs v.attempts),
            { v with response := partials v.attempts, err := some (errs v.attempts),
                     attempts := v.attempts + 1 }) := by
        unfold readBatch.operation
        simp [h1, h2]
      rw [backoff.retryLoop]
      simp only [hop, h3]
      exact ih rest _ (by simp [readBatch.notify]; omega) (by simpa using hw)

/-- C18: for a read batch whose first `n` attempts fail with retriable errors
after delivering some chunks and whose next attempt succeeds before the backoff
policy gives up, `doRequestWithRetries` returns with no error a response that
contains only the chunks of the last attempt, in order, after `n + 1` invocations
of the executor; no chunk of a failed attempt is carried over. -/
theorem doRequestWithRetries_last_attempt_only (b : readBatch) (k : constant)
    (backOff : BackOff) (request : ReadRequest) (n : Nat)
    (failedChunks : Nat → List ReadResponse) (errs : Nat → GoError)
    (chunks : List ReadResponse) (final : GoError)
    (hfail : ∀ i, i < n → b.execute i request = Opened.stream ⟨failedChunks i, errs i⟩ ∧
      (errs i).isEOF = false ∧ isRetriable k (some (errs i)) = true ∧
      (errs i).asPermanent = none)
    (hlast : b.execute n request = Opened.stream ⟨chunks, final⟩)
    (heof : final.isEOF = true)
    (hwaits : n ≤ backOff.waits.length) :
    (b.doRequestWithRetries k backOff request).err = none ∧
      (b.doRequestWithRetries k backOff request).response =
        some { Gets := chunks.flatMap (fun chunk => chunk.Gets) } ∧
      (b.doRequestWithRetries k backOff request).attempts = n + 1 := by
  have hf : ∀ i, i < n →
      b.doRequest i request =
          (some { Gets := (failedChunks i).flatMap (fun chunk => chunk.Gets) },
            some (errs i)) ∧
        isRetriable k (some (errs i)) = true ∧ (errs i).asPermanent = none := by
    intro i hi
    obtain ⟨h1, h2, h3, h4⟩ := hfail i hi
    refine ⟨?_, h3, h4⟩
    simp [readBatch.doRequest, h1, recvLoop_eq, h2]
  have hl : b.doRequest n request =
      (some { Gets := chunks.flatMap (fun chunk => chunk.Gets) }, none) := by
    simp [readBatch.doRequest, hlast, recvLoop_eq, heof]
  obtain ⟨r1, r2, r3⟩ := retryLoop_retries b k request backOff.last n
    (fun i => some { Gets := (failedChunks i).flatMap (fun chunk => chunk.Gets) }) errs
    { Gets := chunks.flatMap (fun chunk => chunk.Gets) } hf hl n backOff.waits
    { response := none, err := none, attempts := 0, notified := [] } (by simp) hwaits
  unfold readBatch.doRequestWithRetries backoff.RetryNotify
  exact ⟨r1, r2, r3⟩

/-- C18 at the sample batch whose first stream fails with `Unavailable` after the
chunk with entry 5 and whose second stream yields entries 6 and 7: the response
holds 6 and 7 only. -/
theorem doRequestWithRetries_last_attempt_only_witness :
    ((sampleBatch retryExecute).doRequestWithRetries sampleCodes sampleBackOff
        (sampleBatch retryExecute).toProto).err = none ∧
      ((sampleBatch retryExecute).doRequestWithRetries sampleCodes sampleBackOff
        (sampleBatch retryExecute).toProto).response = some { Gets := [entry 6, entry 7] } ∧
      ((sampleBatch retryExecute).doRequestWithRetries sampleCodes sampleBackOff
        (sampleBatch retryExecute).toProto).attempts = 2 :=
  doRequestWithRetries_last_attempt_only (sampleBatch retryExecute) sampleCodes sampleBackOff
    (sampleBatch retryExecute).toProto 1
    (fun _ => [{ Gets := [entry 5] }]) (fun _ => GoError.status 14 "unavailable")
    [{ Gets := [entry 6] }, { Gets := [entry 7] }] GoError.eof
    (by
      intro i hi
      have h0 : i = 0 := by omega
      subst h0
      exact ⟨rfl, rfl, by decide, rfl⟩)
    rfl rfl (by decide)

end Oxia
